import Mathlib

/-!
Verification of the matchbox limit-order-book matching engine
(source: src/main.rs).

Shallow embedding conventions:
* rust_decimal `Decimal` is modelled as `ℚ` (exact arithmetic; only
  comparison, `min`, subtraction and multiplication are used);
  `Decimal::MAX` is the concrete constant `2^96 - 1`.
* `Uuid` is modelled as `ℕ` (an opaque identifier with decidable
  equality and a total order for the ordered-set iteration).
* `BTreeMap` is modelled as an association list kept sorted by the key
  order at insertion time; in-order iteration is list traversal.
* `BTreeSet<Uuid>` is modelled as a strictly ascending duplicate-free
  `List ℕ` (`setInsert`/`setUnion` below); in-order iteration over the
  set is list traversal.
* `HashMap` is modelled as an association list (insertion returning
  the previous value, key-based removal).
* panics (`panic!`, `assert!`) are modelled as `Except` errors.
-/

abbrev Uuid := Nat

abbrev Decimal := ℚ

def SECOND : Nat := 1000 * 1000 * 1000

def DAY : Nat := SECOND * 60 * 60 * 24

def MAX_LIFETIME : Nat := 90 * DAY

/-- `rust_decimal::Decimal::MAX` = 79228162514264337593543950335 = 2^96 - 1. -/
def DecimalMAX : Decimal := 79228162514264337593543950335

inductive Side where
  | Buy
  | Sell
deriving DecidableEq, Repr

def other_side : Side → Side
  | .Buy => .Sell
  | .Sell => .Buy

inductive TimeInForce where
  | GTC
  | IOC
  | GTD (lifetime : Nat)
deriving DecidableEq, Repr

structure Order where
  uuid : Uuid
  side : Side
  created : Nat
  amount : Decimal
  price : Decimal
  tif : TimeInForce
  remaining_amount : Decimal
deriving DecidableEq, Repr

structure Fill where
  base_amount : Decimal
  price : Decimal
  maker_uuid : Uuid
  taker_uuid : Uuid
deriving DecidableEq, Repr

def Fill.quote_amount (f : Fill) : Decimal := f.base_amount * f.price

structure MatchResult where
  fills : List Fill
  closed : List Uuid
deriving DecidableEq

inductive Place where
  | MarketOrder (uuid : Uuid) (side : Side) (amount : Decimal)
  | LimitOrder (uuid : Uuid) (side : Side) (amount : Decimal) (tif : TimeInForce) (price : Decimal)
deriving DecidableEq, Repr

inductive Command where
  | Place (place : Place)
  | Cancel (uuid : Uuid)
  | Flush
deriving DecidableEq, Repr

structure CommandAtTime where
  now : Nat
  command : Command

/-- `Order::create` (src/main.rs lines 120-150). -/
def Order.create (place : Place) (now : Nat) : Order :=
  match place with
  | .MarketOrder uuid side amount =>
      { uuid := uuid, created := now, side := side, amount := amount,
        tif := .IOC,
        price := match side with | .Buy => DecimalMAX | .Sell => 0,
        remaining_amount := amount }
  | .LimitOrder uuid side amount tif price =>
      { uuid := uuid, created := now, side := side, amount := amount,
        tif := tif, price := price, remaining_amount := amount }

/-- `Order::expiry` (src/main.rs lines 152-158). -/
def Order.expiry (o : Order) : Nat :=
  match o.tif with
  | .IOC => o.created
  | .GTC => o.created + MAX_LIFETIME
  | .GTD lifetime => o.created + lifetime

/-- `PriceTime(Decimal, u64)` with the derived lexicographic order. -/
structure PriceTime where
  price : Decimal
  created : Nat
deriving DecidableEq, Repr

/-- The derived `Ord` on `PriceTime`: lexicographic strict order. -/
def PriceTime.ltb (a b : PriceTime) : Bool :=
  decide (a.price < b.price) || (decide (a.price = b.price) && decide (a.created < b.created))

structure SidePriceTime where
  side : Side
  price : Decimal
  created : Nat
deriving DecidableEq, Repr

/-- `BTreeSet::insert` on a strictly ascending list: ordered insertion,
no duplicates. -/
def setInsert (u : Uuid) : List Uuid → List Uuid
  | [] => [u]
  | v :: rest =>
      if u < v then u :: v :: rest
      else if u = v then v :: rest
      else v :: setInsert u rest

/-- `BTreeSet::union`: insert every element of the first set into the second. -/
def setUnion (a b : List Uuid) : List Uuid :=
  match a with
  | [] => b
  | u :: rest => setInsert u (setUnion rest b)

/-- Association-list lookup (key-based; models map lookup). -/
def alookup {K V : Type} [DecidableEq K] (k : K) : List (K × V) → Option V
  | [] => none
  | (k', v') :: rest => if k = k' then some v' else alookup k rest

/-- Map removal: returns the removed value (if any) and the remaining list.
Models both `BTreeMap::remove` and `HashMap::remove`. -/
def mapRemove {K V : Type} [DecidableEq K] (k : K) : List (K × V) → Option V × List (K × V)
  | [] => (none, [])
  | (k', v') :: rest =>
      if k = k' then (some v', rest)
      else
        let r := mapRemove k rest
        (r.1, (k', v') :: r.2)

/-- `HashMap::insert`: returns the previous value at the key (if any). -/
def hashInsert {K V : Type} [DecidableEq K] (k : K) (v : V) :
    List (K × V) → Option V × List (K × V)
  | [] => (none, [(k, v)])
  | (k', v') :: rest =>
      if k = k' then (some v', (k, v) :: rest)
      else
        let r := hashInsert k v rest
        (r.1, (k', v') :: r.2)

/-- `BTreeMap::insert` on a list sorted by `lt`: insert at the ordered
position, replacing the value if the key is already present. -/
def btreeInsert {K V : Type} [DecidableEq K] (lt : K → K → Bool) (k : K) (v : V) :
    List (K × V) → List (K × V)
  | [] => [(k, v)]
  | (k', v') :: rest =>
      if lt k k' then (k, v) :: (k', v') :: rest
      else if k = k' then (k, v) :: rest
      else (k', v') :: btreeInsert lt k v rest

inductive EngineError where
  | NonMonotonicTime
  | DuplicateId
  | InternalInconsistency
deriving DecidableEq, Repr

/-- `Engine` state (src/main.rs lines 170-176). -/
structure Engine where
  buy : List (PriceTime × Order)
  sell : List (PriceTime × Order)
  last_tick : Nat
  uuid_to_side_price_time : List (Uuid × SidePriceTime)
  expiry_to_uuid : List (Nat × Uuid)
deriving DecidableEq

def Engine.new : Engine :=
  { buy := [], sell := [], last_tick := 0, uuid_to_side_price_time := [], expiry_to_uuid := [] }

/-- `Engine::resting` (read view; src/main.rs lines 234-239). -/
def bookOf (e : Engine) : Side → List (PriceTime × Order)
  | .Buy => e.buy
  | .Sell => e.sell

def setBook (e : Engine) : Side → List (PriceTime × Order) → Engine
  | .Buy, b => { e with buy := b }
  | .Sell, b => { e with sell := b }

/-- `crossed` (src/main.rs lines 178-186). -/
def crossed (taker maker : Order) : Bool :=
  if taker.remaining_amount = 0 then false
  else match taker.side with
    | .Buy => decide (maker.price ≤ taker.price)
    | .Sell => decide (taker.price ≤ maker.price)

/-- `traded = min(taker.remaining_amount, maker.remaining_amount)`. -/
def traded (taker maker : Order) : Decimal :=
  min taker.remaining_amount maker.remaining_amount

/-- The `Fill` built in one iteration of the matching loop (src/main.rs lines 215-220). -/
def fillOf (taker maker : Order) : Fill :=
  { base_amount := traded taker maker, price := maker.price,
    maker_uuid := maker.uuid, taker_uuid := taker.uuid }

/-- The taker after one iteration of the matching loop. -/
def decT (taker maker : Order) : Order :=
  { taker with remaining_amount := taker.remaining_amount - traded taker maker }

/-- The maker after one iteration of the matching loop. -/
def decM (taker maker : Order) : Order :=
  { maker with remaining_amount := maker.remaining_amount - traded taker maker }

/-- The ids inserted into `closed` in one iteration (src/main.rs lines 208-213). -/
def stepClosed (taker maker : Order) : List Uuid :=
  setUnion (if taker.remaining_amount ≤ maker.remaining_amount then [taker.uuid] else [])
    (if maker.remaining_amount ≤ taker.remaining_amount then [maker.uuid] else [])

/-- The matching loop of `Engine::_match` (src/main.rs lines 203-226), taker component. -/
def walkTaker (taker : Order) : List (PriceTime × Order) → Order
  | [] => taker
  | (_, maker) :: rest =>
      if crossed taker maker then walkTaker (decT taker maker) rest else taker

/-- The matching loop, book component (makers mutated in place, walk stops
at the first non-crossing maker). -/
def walkBook (taker : Order) : List (PriceTime × Order) → List (PriceTime × Order)
  | [] => []
  | (k, maker) :: rest =>
      if crossed taker maker then (k, decM taker maker) :: walkBook (decT taker maker) rest
      else (k, maker) :: rest

/-- The matching loop, emitted fills in emission order. -/
def walkFills (taker : Order) : List (PriceTime × Order) → List Fill
  | [] => []
  | (_, maker) :: rest =>
      if crossed taker maker then fillOf taker maker :: walkFills (decT taker maker) rest
      else []

/-- The matching loop, closed set accumulated during the walk. -/
def walkClosed (taker : Order) : List (PriceTime × Order) → List Uuid
  | [] => []
  | (_, maker) :: rest =>
      if crossed taker maker then
        setUnion (stepClosed taker maker) (walkClosed (decT taker maker) rest)
      else []

/-- Number of makers visited (= number of fills) by the matching loop. -/
def walkN (taker : Order) : List (PriceTime × Order) → Nat
  | [] => 0
  | (_, maker) :: rest =>
      if crossed taker maker then walkN (decT taker maker) rest + 1 else 0

/-- `Engine::_match` (src/main.rs lines 196-232): run the loop on the
opposite book side, then unconditionally close an IOC taker. -/
def Engine._match (e : Engine) (taker : Order) : Order × Engine × MatchResult :=
  let side := other_side taker.side
  let book := bookOf e side
  let taker' := walkTaker taker book
  let closed := walkClosed taker book
  let closed' := match taker'.tif with
    | .IOC => setInsert taker'.uuid closed
    | _ => closed
  (taker', setBook e side (walkBook taker book),
   { fills := walkFills taker book, closed := closed' })

/-- The key under which an order is stored in its book side
(src/main.rs lines 264-271): negated price for buys, price for sells. -/
def orderKey (o : Order) : PriceTime :=
  match o.side with
  | .Buy => { price := -o.price, created := o.created }
  | .Sell => { price := o.price, created := o.created }

/-- The book key recovered from a locator (src/main.rs lines 307-310). -/
def sptKey (s : SidePriceTime) : PriceTime :=
  match s.side with
  | .Buy => { price := -s.price, created := s.created }
  | .Sell => { price := s.price, created := s.created }

/-- `Engine::insert` (src/main.rs lines 250-272); the duplicate-id panic
is modelled as the `DuplicateId` error. -/
def Engine.insert (e : Engine) (o : Order) : Except EngineError Engine :=
  let r := hashInsert o.uuid { side := o.side, price := o.price, created := o.created }
    e.uuid_to_side_price_time
  match r.1 with
  | some _ => .error .DuplicateId
  | none =>
      let e1 := { e with uuid_to_side_price_time := r.2,
                         expiry_to_uuid :=
                           btreeInsert (fun a b => decide (a < b)) o.expiry o.uuid
                             e.expiry_to_uuid }
      .ok (setBook e1 o.side (btreeInsert PriceTime.ltb (orderKey o) o (bookOf e1 o.side)))

/-- `Engine::remove` (src/main.rs lines 298-322); the "Data structure
mismatch" panic and the failed assert are `InternalInconsistency`. -/
def Engine.remove (e : Engine) (uuid : Uuid) : Except EngineError (Bool × Engine) :=
  let r := mapRemove uuid e.uuid_to_side_price_time
  match r.1 with
  | none => .ok (false, { e with uuid_to_side_price_time := r.2 })
  | some spt =>
      let e1 := { e with uuid_to_side_price_time := r.2 }
      let rb := mapRemove (sptKey spt) (bookOf e1 spt.side)
      match rb.1 with
      | none => .error .InternalInconsistency
      | some order =>
          let e2 := setBook e1 spt.side rb.2
          let re := mapRemove order.expiry e2.expiry_to_uuid
          match re.1 with
          | none => .error .InternalInconsistency
          | some _ => .ok (true, { e2 with expiry_to_uuid := re.2 })

/-- The collection loop of `Engine::flush` (src/main.rs lines 326-332):
in-order scan of the expiry index, stopping at the first key > now. -/
def collectExpired (now : Nat) : List (Nat × Uuid) → List Uuid
  | [] => []
  | (t, u) :: rest => if t ≤ now then setInsert u (collectExpired now rest) else []

/-- Sequential removal of a list of ids, as done by the loops in
`Engine::flush` and `Engine::place`. -/
def Engine.removeAll (e : Engine) : List Uuid → Except EngineError Engine
  | [] => .ok e
  | u :: rest => do
      let r ← e.remove u
      Engine.removeAll r.2 rest

/-- `Engine::flush` (src/main.rs lines 323-338). -/
def Engine.flush (e : Engine) (now : Nat) : Except EngineError (List Uuid × Engine) := do
  let expired := collectExpired now e.expiry_to_uuid
  let e1 ← e.removeAll expired
  .ok (expired, e1)

/-- `merge` (src/main.rs lines 188-193). -/
def merge (r1 : MatchResult) (closed : List Uuid) : MatchResult :=
  { fills := r1.fills, closed := setUnion r1.closed closed }

/-- `Engine::place` (src/main.rs lines 274-288). -/
def Engine.place (e : Engine) (command : Place) (now : Nat) :
    Except EngineError (Engine × MatchResult) := do
  let order := Order.create command now
  let m := e._match order
  let e2 ← m.2.1.removeAll m.2.2.closed
  if m.1.uuid ∈ m.2.2.closed then .ok (e2, m.2.2)
  else do
    let e3 ← e2.insert m.1
    .ok (e3, m.2.2)

/-- `Engine::cancel` (src/main.rs lines 290-296). -/
def Engine.cancel (e : Engine) (uuid : Uuid) : Except EngineError (List Uuid × Engine) := do
  let r ← e.remove uuid
  if r.1 then .ok ([uuid], r.2) else .ok ([], r.2)

/-- `Engine::call` (src/main.rs lines 340-374); the non-monotonic-time
panic is the `NonMonotonicTime` error. -/
def Engine.call (e : Engine) (c : CommandAtTime) : Except EngineError (Engine × MatchResult) :=
  if c.now ≤ e.last_tick then .error .NonMonotonicTime
  else
    let e0 := { e with last_tick := c.now }
    match c.command with
    | .Place p => do
        let f ← e0.flush c.now
        let pr ← f.2.place p c.now
        .ok (pr.1, merge pr.2 f.1)
    | .Cancel u => do
        let f ← e0.flush c.now
        let cr ← f.2.cancel u
        .ok (cr.2, merge { fills := [], closed := cr.1 } f.1)
    | .Flush => do
        let f ← e0.flush c.now
        .ok (f.2, { fills := [], closed := f.1 })

/-- Run a list of commands from a state (the `main` loop, engine part). -/
def runList (e : Engine) : List CommandAtTime → Except EngineError Engine
  | [] => .ok e
  | c :: rest => do
      let r ← e.call c
      runList r.1 rest

def Place.uuid : Place → Uuid
  | .MarketOrder u _ _ => u
  | .LimitOrder u _ _ _ _ => u

def Place.amount : Place → Decimal
  | .MarketOrder _ _ a => a
  | .LimitOrder _ _ a _ _ => a

/-- Removal of one id from every engine structure: under the engine
invariant this is exactly what `Engine::remove` does for a live id (and a
no-op for an unknown one). -/
def eraseUuid (e : Engine) (u : Uuid) : Engine :=
  { buy := e.buy.filter (fun kv => ¬ kv.2.uuid = u),
    sell := e.sell.filter (fun kv => ¬ kv.2.uuid = u),
    last_tick := e.last_tick,
    uuid_to_side_price_time := e.uuid_to_side_price_time.filter (fun p => ¬ p.1 = u),
    expiry_to_uuid := e.expiry_to_uuid.filter (fun q => ¬ q.2 = u) }

def eraseUuids (e : Engine) (us : List Uuid) : Engine := us.foldl eraseUuid e

/-- Per-side well-formedness: every resting entry is keyed by its order's
(side-adjusted) price and creation time, carries the side of its book, and
is registered in the id index and the expiry index. -/
def bookSideOK (s : Side) (l : List (PriceTime × Order))
    (idx : List (Uuid × SidePriceTime)) (exp : List (Nat × Uuid)) : Prop :=
  ∀ kv ∈ l, kv.2.side = s ∧ kv.1 = orderKey kv.2 ∧
    alookup kv.2.uuid idx = some { side := s, price := kv.2.price, created := kv.2.created } ∧
    alookup kv.2.expiry exp = some kv.2.uuid

/-- The engine's data-structure invariant: books sorted by priority key,
expiry index sorted by expiry, id-index keys unique, and the three
structures mutually consistent. -/
@[mk_iff]
structure WF (e : Engine) : Prop where
  buy_sorted : List.Chain' (fun a b => PriceTime.ltb a.1 b.1 = true) e.buy
  sell_sorted : List.Chain' (fun a b => PriceTime.ltb a.1 b.1 = true) e.sell
  exp_sorted : List.Chain' (fun a b : Nat × Uuid => a.1 < b.1) e.expiry_to_uuid
  idx_nodup : (e.uuid_to_side_price_time.map Prod.fst).Nodup
  buy_ok : bookSideOK .Buy e.buy e.uuid_to_side_price_time e.expiry_to_uuid
  sell_ok : bookSideOK .Sell e.sell e.uuid_to_side_price_time e.expiry_to_uuid
  idx_to_book : ∀ p ∈ e.uuid_to_side_price_time, ∃ kv ∈ bookOf e p.2.side,
    kv.2.uuid = p.1 ∧ kv.2.price = p.2.price ∧ kv.2.created = p.2.created
  exp_to_book : ∀ q ∈ e.expiry_to_uuid,
    (∃ kv ∈ e.buy, kv.2.uuid = q.2 ∧ kv.2.expiry = q.1) ∨
    (∃ kv ∈ e.sell, kv.2.uuid = q.2 ∧ kv.2.expiry = q.1)

/-- Executable adjacent-pairs check, used to decide `List.Chain'` in the
kernel. -/
def chainB {A : Type} (r : A → A → Bool) : List A → Bool
  | [] => true
  | [_] => true
  | a :: b :: rest => r a b && chainB r (b :: rest)

lemma chainB_iff {A : Type} (r : A → A → Bool) (l : List A) :
    chainB r l = true ↔ List.Chain' (fun a b => r a b = true) l := by
  induction l with
  | nil => simp [chainB]
  | cons a rest ih =>
      cases rest with
      | nil => simp [chainB]
      | cons b rest2 =>
          rw [chainB, Bool.and_eq_true, ih, List.chain'_cons]

instance decChainPT (l : List (PriceTime × Order)) :
    Decidable (List.Chain' (fun a b => PriceTime.ltb a.1 b.1 = true) l) :=
  decidable_of_iff (chainB (fun a b => PriceTime.ltb a.1 b.1) l = true) (chainB_iff _ _)

instance decChainExp (l : List (Nat × Uuid)) :
    Decidable (List.Chain' (fun a b : Nat × Uuid => a.1 < b.1) l) :=
  decidable_of_iff (chainB (fun a b => decide (a.1 < b.1)) l = true)
    ((chainB_iff _ _).trans
      ⟨fun h => h.imp (fun _ _ hab => of_decide_eq_true hab),
       fun h => h.imp (fun _ _ hab => decide_eq_true hab)⟩)

instance (s : Side) (l : List (PriceTime × Order)) (idx : List (Uuid × SidePriceTime))
    (exp : List (Nat × Uuid)) : Decidable (bookSideOK s l idx exp) :=
  inferInstanceAs (Decidable (∀ kv ∈ l, kv.2.side = s ∧ kv.1 = orderKey kv.2 ∧
    alookup kv.2.uuid idx =
      some { side := s, price := kv.2.price, created := kv.2.created } ∧
    alookup kv.2.expiry exp = some kv.2.uuid))

instance (e : Engine) : Decidable (WF e) :=
  decidable_of_iff _ (wF_iff e).symm

/-- Concrete sample states used to witness the claim theorems on explicit
inputs. -/
def sampleSell : Order :=
  { uuid := 1, side := .Sell, created := 1, amount := 2, price := 100,
    tif := .GTC, remaining_amount := 2 }

def sampleEngine : Engine :=
  { buy := [], sell := [({ price := 100, created := 1 }, sampleSell)], last_tick := 1,
    uuid_to_side_price_time := [(1, { side := .Sell, price := 100, created := 1 })],
    expiry_to_uuid := [(1 + MAX_LIFETIME, 1)] }

def sampleBuyTaker : Order := Order.create (.LimitOrder 2 .Buy 1 .GTC 100) 2

/-- A buy order with id 5, resting after one GTC place at time 1; used by
the duplicate-id counterexample. -/
def restingBuy5 : Order := Order.create (.LimitOrder 5 .Buy 1 .GTC 100) 1

def engineBuy5 : Engine :=
  { buy := [({ price := -100, created := 1 }, restingBuy5)], sell := [], last_tick := 1,
    uuid_to_side_price_time := [(5, { side := .Buy, price := 100, created := 1 })],
    expiry_to_uuid := [(1 + MAX_LIFETIME, 5)] }

/-- Every resting order has strictly positive remaining amount, bounded by
its original amount. -/
def POS (e : Engine) : Prop :=
  ∀ kv ∈ e.buy ++ e.sell, 0 < kv.2.remaining_amount ∧ kv.2.remaining_amount ≤ kv.2.amount

instance (e : Engine) : Decidable (POS e) :=
  inferInstanceAs (Decidable (∀ kv ∈ e.buy ++ e.sell,
    0 < kv.2.remaining_amount ∧ kv.2.remaining_amount ≤ kv.2.amount))

/-- The sample maker after being partially filled by one unit. -/
def sampleSell1 : Order :=
  { uuid := 1, side := .Sell, created := 1, amount := 2, price := 100,
    tif := .GTC, remaining_amount := 1 }

/-- Abbreviations for the intermediate states of a Place command
(flush-before-write, then match, then removal of closed ids). -/
def placeFlushed (e : Engine) (now : Nat) : Engine :=
  eraseUuids { e with last_tick := now } (collectExpired now e.expiry_to_uuid)

def placeMatched (e : Engine) (now : Nat) (p : Place) : Order × Engine × MatchResult :=
  (placeFlushed e now)._match (Order.create p now)

def placeRemoved (e : Engine) (now : Nat) (p : Place) : Engine :=
  eraseUuids (placeMatched e now p).2.1 (placeMatched e now p).2.2.closed

instance {E A : Type} [DecidableEq E] [DecidableEq A] : DecidableEq (Except E A) := fun x y =>
  match x, y with
  | .error a, .error b => decidable_of_iff (a = b) (by simp)
  | .error _, .ok _ => isFalse (by simp)
  | .ok _, .error _ => isFalse (by simp)
  | .ok a, .ok b => decidable_of_iff (a = b) (by simp)

/-! ## Basic lemmas about the matching walk -/

lemma bookOf_setBook (e : Engine) (s : Side) (b : List (PriceTime × Order)) :
    bookOf (setBook e s b) s = b := by
  cases s <;> rfl

lemma walkFills_length (taker : Order) (book : List (PriceTime × Order)) :
    (walkFills taker book).length = walkN taker book := by
  induction book generalizing taker with
  | nil => rfl
  | cons kv rest ih =>
      obtain ⟨k, maker⟩ := kv
      cases h : crossed taker maker <;> simp [walkFills, walkN, h, ih]

lemma walkN_le (taker : Order) (book : List (PriceTime × Order)) :
    walkN taker book ≤ book.length := by
  induction book generalizing taker with
  | nil => exact Nat.le_refl _
  | cons kv rest ih =>
      obtain ⟨k, maker⟩ := kv
      cases h : crossed taker maker <;> simp [walkN, h]
      exact ih _

lemma walkTaker_eq (taker : Order) (book : List (PriceTime × Order)) :
    walkTaker taker book =
      { taker with remaining_amount :=
          taker.remaining_amount - ((walkFills taker book).map Fill.base_amount).sum } := by
  induction book generalizing taker with
  | nil => simp [walkTaker, walkFills]
  | cons kv rest ih =>
      obtain ⟨k, maker⟩ := kv
      cases h : crossed taker maker
      · simp [walkTaker, walkFills, h]
      · simp only [walkTaker, walkFills, h, if_pos, List.map_cons, List.sum_cons]
        rw [ih]
        simp [decT, fillOf, sub_sub]

lemma walkBook_length (taker : Order) (book : List (PriceTime × Order)) :
    (walkBook taker book).length = book.length := by
  induction book generalizing taker with
  | nil => rfl
  | cons kv rest ih =>
      obtain ⟨k, maker⟩ := kv
      cases h : crossed taker maker <;> simp [walkBook, h, ih]

lemma walkBook_drop (taker : Order) (book : List (PriceTime × Order)) :
    (walkBook taker book).drop (walkN taker book) = book.drop (walkN taker book) := by
  induction book generalizing taker with
  | nil => rfl
  | cons kv rest ih =>
      obtain ⟨k, maker⟩ := kv
      cases h : crossed taker maker <;> simp [walkBook, walkN, h, ih]

lemma walkFills_maker_uuids (taker : Order) (book : List (PriceTime × Order)) :
    (walkFills taker book).map Fill.maker_uuid =
      (book.take (walkN taker book)).map (fun kv => kv.2.uuid) := by
  induction book generalizing taker with
  | nil => rfl
  | cons kv rest ih =>
      obtain ⟨k, maker⟩ := kv
      cases h : crossed taker maker <;> simp [walkFills, walkN, h, ih, fillOf]

lemma walk_stop (taker : Order) (book : List (PriceTime × Order))
    (h : walkN taker book < book.length) :
    crossed (walkTaker taker book) (book.get ⟨walkN taker book, h⟩).2 = false := by
  induction book generalizing taker with
  | nil => exact absurd h (by simp)
  | cons kv rest ih =>
      obtain ⟨k, maker⟩ := kv
      cases hc : crossed taker maker
      · simp [walkN, walkTaker, hc]
      · simp only [walkN, walkTaker, hc, if_pos]
        exact ih _ _

/-- The taker state at the start of iteration `i` of the matching loop:
the original remaining amount less everything filled so far. -/
def takerAt (taker : Order) (book : List (PriceTime × Order)) (i : Nat) : Order :=
  { taker with remaining_amount :=
      taker.remaining_amount - (((walkFills taker book).take i).map Fill.base_amount).sum }

lemma takerAt_zero (taker : Order) (book : List (PriceTime × Order)) :
    takerAt taker book 0 = taker := by
  simp [takerAt]

lemma takerAt_succ (taker maker : Order) (k : PriceTime) (rest : List (PriceTime × Order))
    (i : Nat) (hc : crossed taker maker = true) :
    takerAt taker ((k, maker) :: rest) (i + 1) = takerAt (decT taker maker) rest i := by
  simp [takerAt, walkFills, hc, decT, fillOf, sub_sub]

lemma walkFills_getElem (taker : Order) (book : List (PriceTime × Order)) (i : Nat)
    (kv : PriceTime × Order) (hb : book[i]? = some kv) (hn : i < walkN taker book) :
    (walkFills taker book)[i]? = some (fillOf (takerAt taker book i) kv.2) := by
  induction book generalizing taker i with
  | nil => simp at hb
  | cons hd rest ih =>
      obtain ⟨k, maker⟩ := hd
      cases hc : crossed taker maker
      · rw [walkN, hc] at hn; simp at hn
      · cases i with
        | zero =>
            simp at hb
            simp [walkFills, hc, takerAt_zero, ← hb]
        | succ i =>
            rw [walkN, hc] at hn
            simp only [if_pos] at hn
            simp only [List.getElem?_cons_succ] at hb
            rw [walkFills, hc]
            simp only [if_pos, List.getElem?_cons_succ]
            rw [takerAt_succ taker maker k rest i hc]
            exact ih _ _ hb (Nat.lt_of_succ_lt_succ hn)

lemma walkBook_getElem (taker : Order) (book : List (PriceTime × Order)) (i : Nat)
    (kv : PriceTime × Order) (hb : book[i]? = some kv) (hn : i < walkN taker book) :
    (walkBook taker book)[i]? = some (kv.1, decM (takerAt taker book i) kv.2) := by
  induction book generalizing taker i with
  | nil => simp at hb
  | cons hd rest ih =>
      obtain ⟨k, maker⟩ := hd
      cases hc : crossed taker maker
      · rw [walkN, hc] at hn; simp at hn
      · cases i with
        | zero =>
            simp at hb
            simp [walkBook, hc, takerAt_zero, ← hb]
        | succ i =>
            rw [walkN, hc] at hn
            simp only [if_pos] at hn
            simp only [List.getElem?_cons_succ] at hb
            rw [walkBook, hc]
            simp only [if_pos, List.getElem?_cons_succ]
            rw [takerAt_succ taker maker k rest i hc]
            exact ih _ _ hb (Nat.lt_of_succ_lt_succ hn)

lemma walk_crossed_at (taker : Order) (book : List (PriceTime × Order)) (i : Nat)
    (kv : PriceTime × Order) (hb : book[i]? = some kv) (hn : i < walkN taker book) :
    crossed (takerAt taker book i) kv.2 = true := by
  induction book generalizing taker i with
  | nil => simp at hb
  | cons hd rest ih =>
      obtain ⟨k, maker⟩ := hd
      cases hc : crossed taker maker
      · rw [walkN, hc] at hn; simp at hn
      · cases i with
        | zero =>
            simp at hb
            rw [takerAt_zero, ← hb]
            exact hc
        | succ i =>
            rw [walkN, hc] at hn
            simp only [if_pos] at hn
            simp only [List.getElem?_cons_succ] at hb
            rw [takerAt_succ taker maker k rest i hc]
            exact ih _ _ hb (Nat.lt_of_succ_lt_succ hn)

/-- The pure price test of `crossed`, ignoring the remaining-amount check:
which resting makers the taker's limit price crosses. -/
def priceCrosses (taker maker : Order) : Bool :=
  match taker.side with
  | .Buy => decide (maker.price ≤ taker.price)
  | .Sell => decide (taker.price ≤ maker.price)

lemma crossed_imp_priceCrosses (taker maker : Order) (h : crossed taker maker = true) :
    priceCrosses taker maker = true := by
  rw [crossed] at h
  rw [priceCrosses]
  by_cases hz : taker.remaining_amount = 0
  · simp [hz] at h
  · rw [if_neg hz] at h
    exact h

lemma priceCrosses_decT (taker maker kv : Order) :
    priceCrosses (decT taker maker) kv = priceCrosses taker kv := rfl

lemma decT_remaining_nonneg (taker maker : Order) (_h : 0 ≤ taker.remaining_amount) :
    0 ≤ (decT taker maker).remaining_amount := by
  simp only [decT, traded]
  exact sub_nonneg.mpr (min_le_left _ _)

lemma walkTaker_remaining_nonneg (taker : Order) (book : List (PriceTime × Order))
    (h : 0 ≤ taker.remaining_amount) : 0 ≤ (walkTaker taker book).remaining_amount := by
  induction book generalizing taker with
  | nil => exact h
  | cons hd rest ih =>
      obtain ⟨k, maker⟩ := hd
      cases hc : crossed taker maker
      · simpa [walkTaker, hc] using h
      · rw [walkTaker, hc]
        simp only [if_pos]
        exact ih _ (decT_remaining_nonneg _ _ h)

lemma walkFills_sum (taker : Order) (book : List (PriceTime × Order)) :
    ((walkFills taker book).map Fill.base_amount).sum =
      taker.remaining_amount - (walkTaker taker book).remaining_amount := by
  rw [walkTaker_eq]
  ring

lemma walkFills_base_nonneg (taker : Order) (book : List (PriceTime × Order))
    (ht : 0 ≤ taker.remaining_amount) (hb : ∀ kv ∈ book, 0 ≤ kv.2.remaining_amount) :
    ∀ f ∈ walkFills taker book, 0 ≤ f.base_amount := by
  induction book generalizing taker with
  | nil => simp [walkFills]
  | cons hd rest ih =>
      obtain ⟨k, maker⟩ := hd
      cases hc : crossed taker maker
      · simp [walkFills, hc]
      · rw [walkFills, hc]
        simp only [if_pos, List.mem_cons]
        rintro f (rfl | hf)
        · exact le_min ht (hb _ (List.mem_cons_self _ _))
        · exact ih _ (decT_remaining_nonneg _ _ ht)
            (fun kv hkv => hb kv (List.mem_cons_of_mem _ hkv)) f hf

lemma walkFills_sum_le_crossed (taker : Order) (book : List (PriceTime × Order))
    (hb : ∀ kv ∈ book, 0 ≤ kv.2.remaining_amount) :
    ((walkFills taker book).map Fill.base_amount).sum ≤
      ((book.filter (fun kv => priceCrosses taker kv.2)).map
        (fun kv => kv.2.remaining_amount)).sum := by
  induction book generalizing taker with
  | nil => simp [walkFills]
  | cons hd rest ih =>
      obtain ⟨k, maker⟩ := hd
      have hrest : ∀ kv ∈ rest, 0 ≤ kv.2.remaining_amount :=
        fun kv hkv => hb kv (List.mem_cons_of_mem _ hkv)
      cases hc : crossed taker maker
      · rw [walkFills, hc]
        simp only [Bool.false_eq_true, if_false, List.map_nil, List.sum_nil]
        apply List.sum_nonneg
        intro x hx
        obtain ⟨kv, hkv, rfl⟩ := List.mem_map.mp hx
        exact hb kv (List.mem_of_mem_filter hkv)
      · rw [walkFills, hc]
        simp only [if_pos, List.map_cons, List.sum_cons]
        rw [List.filter_cons_of_pos (by simpa using crossed_imp_priceCrosses _ _ hc)]
        simp only [List.map_cons, List.sum_cons]
        have h1 : (fillOf taker maker).base_amount ≤ maker.remaining_amount :=
          min_le_right _ _
        have h2 := ih (decT taker maker) hrest
        simp only [priceCrosses_decT] at h2
        exact add_le_add h1 h2

lemma mem_setInsert (x u : Uuid) (l : List Uuid) :
    x ∈ setInsert u l ↔ x = u ∨ x ∈ l := by
  induction l with
  | nil => simp [setInsert]
  | cons v rest ih =>
      rw [setInsert]
      split
      · simp
      · split
        · rename_i hv
          subst hv
          simp
        · simp only [List.mem_cons, ih]
          tauto

lemma mem_setUnion (x : Uuid) (a b : List Uuid) :
    x ∈ setUnion a b ↔ x ∈ a ∨ x ∈ b := by
  induction a with
  | nil => simp [setUnion]
  | cons u rest ih =>
      rw [setUnion, mem_setInsert, ih]
      simp only [List.mem_cons]
      tauto

lemma mem_stepClosed (taker maker : Order) (u : Uuid) (h : u ∈ stepClosed taker maker) :
    u = taker.uuid ∨ u = maker.uuid := by
  rw [stepClosed, mem_setUnion] at h
  rcases h with h1 | h1 <;> split at h1 <;> simp at h1 <;> tauto

lemma mem_walkClosed (taker : Order) (book : List (PriceTime × Order)) (u : Uuid)
    (h : u ∈ walkClosed taker book) :
    u = taker.uuid ∨ ∃ kv ∈ book, u = kv.2.uuid := by
  induction book generalizing taker with
  | nil => simp [walkClosed] at h
  | cons hd rest ih =>
      obtain ⟨k, maker⟩ := hd
      cases hc : crossed taker maker
      · rw [walkClosed, hc] at h; simp at h
      · rw [walkClosed, hc] at h
        simp only [if_pos, mem_setUnion] at h
        rcases h with h | h
        · rcases mem_stepClosed _ _ _ h with h1 | h1
          · exact Or.inl h1
          · exact Or.inr ⟨(k, maker), List.mem_cons_self _ _, h1⟩
        · rcases ih _ h with h1 | h1
          · exact Or.inl h1
          · obtain ⟨kv, hkv, rfl⟩ := h1
            exact Or.inr ⟨kv, List.mem_cons_of_mem _ hkv, rfl⟩

lemma taker_filled_closed (taker : Order) (book : List (PriceTime × Order))
    (h0 : 0 < taker.remaining_amount)
    (hz : (walkTaker taker book).remaining_amount = 0) :
    taker.uuid ∈ walkClosed taker book := by
  induction book generalizing taker with
  | nil => rw [walkTaker] at hz; exact absurd hz (ne_of_gt h0)
  | cons hd rest ih =>
      obtain ⟨k, maker⟩ := hd
      cases hc : crossed taker maker
      · rw [walkTaker, hc] at hz
        simp only [Bool.false_eq_true, if_false] at hz
        exact absurd hz (ne_of_gt h0)
      · rw [walkTaker, hc] at hz
        rw [walkClosed, hc]
        simp only [if_pos] at hz ⊢
        rcases lt_or_eq_of_le (decT_remaining_nonneg taker maker h0.le) with hd0 | hd0
        · have := ih (decT taker maker) hd0 hz
          exact (mem_setUnion _ _ _).mpr (Or.inr (by simpa [decT] using this))
        · have hmin : min taker.remaining_amount maker.remaining_amount =
              taker.remaining_amount := by
            have h1 : taker.remaining_amount - traded taker maker = 0 := by
              simpa [decT] using hd0.symm
            rw [traded] at h1
            linarith
          have hle : taker.remaining_amount ≤ maker.remaining_amount :=
            min_eq_left_iff.mp hmin
          refine (mem_setUnion _ _ _).mpr (Or.inl ?_)
          rw [stepClosed, mem_setUnion]
          refine Or.inl ?_
          simp [hle]

lemma maker_filled_closed (taker : Order) (book : List (PriceTime × Order)) (i : Nat)
    (kv : PriceTime × Order) (hb : book[i]? = some kv) (hn : i < walkN taker book)
    (hle : kv.2.remaining_amount ≤ (takerAt taker book i).remaining_amount) :
    kv.2.uuid ∈ walkClosed taker book := by
  induction book generalizing taker i with
  | nil => simp at hb
  | cons hd rest ih =>
      obtain ⟨k, maker⟩ := hd
      cases hc : crossed taker maker
      · rw [walkN, hc] at hn; simp at hn
      · rw [walkClosed, hc]
        simp only [if_pos]
        cases i with
        | zero =>
            simp at hb
            rw [takerAt_zero] at hle
            refine (mem_setUnion _ _ _).mpr (Or.inl ?_)
            rw [stepClosed, mem_setUnion]
            refine Or.inr ?_
            rw [← hb] at hle
            simp [hle, ← hb]
        | succ i =>
            rw [walkN, hc] at hn
            simp only [if_pos] at hn
            simp only [List.getElem?_cons_succ] at hb
            rw [takerAt_succ taker maker k rest i hc] at hle
            exact (mem_setUnion _ _ _).mpr
              (Or.inr (ih _ _ hb (Nat.lt_of_succ_lt_succ hn) hle))

lemma match_fills_eq (e : Engine) (taker : Order) :
    (e._match taker).2.2.fills = walkFills taker (bookOf e (other_side taker.side)) := rfl

lemma match_taker_eq (e : Engine) (taker : Order) :
    (e._match taker).1 = walkTaker taker (bookOf e (other_side taker.side)) := rfl

lemma match_book_eq (e : Engine) (taker : Order) :
    bookOf (e._match taker).2.1 (other_side taker.side) =
      walkBook taker (bookOf e (other_side taker.side)) :=
  bookOf_setBook _ _ _

/-- C1: For every Place command, fills are generated by walking the opposite
book side strictly in ascending (effective_price, created) order — the book
key `orderKey` is exactly (effective_price, created) — the filled makers are
a prefix of the opposite book, the walk stops at the first maker the taker
does not cross, and every maker at or after that point is left untouched. -/
theorem claim1_price_time_priority (e : Engine) (taker : Order)
    (hs : List.Chain' (fun a b => PriceTime.ltb a.1 b.1 = true)
      (bookOf e (other_side taker.side)))
    (hk : ∀ kv ∈ bookOf e (other_side taker.side), kv.1 = orderKey kv.2) :
    ∃ n ≤ (bookOf e (other_side taker.side)).length,
      ((e._match taker).2.2.fills).map Fill.maker_uuid =
        ((bookOf e (other_side taker.side)).take n).map (fun kv => kv.2.uuid) ∧
      List.Chain' (fun a b => PriceTime.ltb a b = true)
        (((bookOf e (other_side taker.side)).take n).map (fun kv => orderKey kv.2)) ∧
      (bookOf (e._match taker).2.1 (other_side taker.side)).drop n =
        (bookOf e (other_side taker.side)).drop n ∧
      ∀ h : n < (bookOf e (other_side taker.side)).length,
        crossed (e._match taker).1
          ((bookOf e (other_side taker.side)).get ⟨n, h⟩).2 = false := by
  refine ⟨walkN taker (bookOf e (other_side taker.side)), walkN_le _ _, ?_, ?_, ?_, ?_⟩
  · rw [match_fills_eq]
    exact walkFills_maker_uuids _ _
  · have hmc : (((bookOf e (other_side taker.side)).take
        (walkN taker (bookOf e (other_side taker.side)))).map (fun kv => orderKey kv.2)) =
        ((bookOf e (other_side taker.side)).take
          (walkN taker (bookOf e (other_side taker.side)))).map Prod.fst := by
      apply List.map_congr_left
      intro kv hkv
      exact (hk kv (List.take_subset _ _ hkv)).symm
    rw [hmc]
    exact (List.chain'_map Prod.fst).mpr (hs.take _)
  · rw [match_book_eq]
    exact walkBook_drop _ _
  · intro h
    rw [match_taker_eq]
    exact walk_stop _ _ h

/-- C2: every fill emitted by matching carries the resting (maker) order's
price at the moment of the fill (never the taker's price), base amount
min(taker.remaining, maker.remaining) at that moment, and the maker's and
taker's ids. -/
theorem claim2_maker_price_fills (e : Engine) (taker : Order) (i : Nat)
    (kv : PriceTime × Order)
    (hb : (bookOf e (other_side taker.side))[i]? = some kv)
    (hi : i < ((e._match taker).2.2.fills).length) :
    ((e._match taker).2.2.fills)[i]? = some
      { base_amount :=
          min (takerAt taker (bookOf e (other_side taker.side)) i).remaining_amount
            kv.2.remaining_amount,
        price := kv.2.price,
        maker_uuid := kv.2.uuid,
        taker_uuid := taker.uuid } := by
  rw [match_fills_eq] at hi ⊢
  rw [walkFills_length] at hi
  rw [walkFills_getElem taker _ i kv hb hi]
  rfl

/-- C3: conservation of base for a single matching pass: the total filled
base amount is at most the taker's original amount and at most the total
remaining of the price-crossed makers before the walk; each fill decrements
both the taker's and that maker's remaining by exactly its base amount, and
the taker's remaining decreases by exactly the total filled. -/
theorem claim3_conservation (e : Engine) (taker : Order)
    (hta : taker.remaining_amount = taker.amount)
    (ht0 : 0 ≤ taker.remaining_amount)
    (hb : ∀ kv ∈ bookOf e (other_side taker.side), 0 ≤ kv.2.remaining_amount) :
    ((((e._match taker).2.2.fills).map Fill.base_amount).sum ≤ taker.amount ∧
     (((e._match taker).2.2.fills).map Fill.base_amount).sum ≤
       (((bookOf e (other_side taker.side)).filter
          (fun kv => priceCrosses taker kv.2)).map
         (fun kv => kv.2.remaining_amount)).sum) ∧
    taker.remaining_amount - (e._match taker).1.remaining_amount =
      (((e._match taker).2.2.fills).map Fill.base_amount).sum ∧
    (∀ i f, ((e._match taker).2.2.fills)[i]? = some f →
      (takerAt taker (bookOf e (other_side taker.side)) (i + 1)).remaining_amount =
        (takerAt taker (bookOf e (other_side taker.side)) i).remaining_amount -
          f.base_amount) ∧
    (∀ i kv, (bookOf e (other_side taker.side))[i]? = some kv →
      i < ((e._match taker).2.2.fills).length →
      ∃ f, ((e._match taker).2.2.fills)[i]? = some f ∧
        (bookOf (e._match taker).2.1 (other_side taker.side))[i]? =
          some (kv.1, { kv.2 with remaining_amount :=
            kv.2.remaining_amount - f.base_amount })) := by
  rw [match_fills_eq, match_taker_eq, match_book_eq]
  refine ⟨⟨?_, walkFills_sum_le_crossed _ _ hb⟩, (walkFills_sum _ _).symm, ?_, ?_⟩
  · rw [walkFills_sum, ← hta]
    have := walkTaker_remaining_nonneg taker (bookOf e (other_side taker.side)) ht0
    linarith
  · intro i f hf
    obtain ⟨hi, hgetf⟩ := List.getElem?_eq_some_iff.mp hf
    simp only [takerAt]
    rw [List.map_take, List.map_take, List.sum_take_succ _ i (by simpa using hi)]
    simp only [List.getElem_map]
    rw [hgetf]
    ring
  · intro i kv hbk hlen
    rw [walkFills_length] at hlen
    refine ⟨fillOf (takerAt taker (bookOf e (other_side taker.side)) i) kv.2, ?_, ?_⟩
    · exact walkFills_getElem _ _ _ _ hbk hlen
    · rw [walkBook_getElem _ _ _ _ hbk hlen]
      rfl

/-! ## Lemmas about errors and the clock -/

lemma setBook_last_tick (e : Engine) (s : Side) (b : List (PriceTime × Order)) :
    (setBook e s b).last_tick = e.last_tick := by
  cases s <;> rfl

lemma match_engine_eq (e : Engine) (taker : Order) :
    (e._match taker).2.1 =
      setBook e (other_side taker.side)
        (walkBook taker (bookOf e (other_side taker.side))) := rfl

lemma match_last_tick (e : Engine) (taker : Order) :
    (e._match taker).2.1.last_tick = e.last_tick := by
  rw [match_engine_eq]
  exact setBook_last_tick _ _ _

@[simp] lemma bindE_ok {β γ : Type} (a : β) (f : β → Except EngineError γ) :
    (Except.ok a : Except EngineError β) >>= f = f a := rfl

@[simp] lemma bindE_error {β γ : Type} (err : EngineError) (f : β → Except EngineError γ) :
    (Except.error err : Except EngineError β) >>= f = Except.error err := rfl

lemma remove_ne_nmt (e : Engine) (u : Uuid) :
    e.remove u ≠ Except.error EngineError.NonMonotonicTime := by
  intro h
  rw [Engine.remove] at h
  dsimp only at h
  split at h
  · simp at h
  · split at h
    · simp at h
    · split at h
      · simp at h
      · simp at h

lemma remove_last_tick (e : Engine) (u : Uuid) (b : Bool) (e' : Engine)
    (h : e.remove u = .ok (b, e')) : e'.last_tick = e.last_tick := by
  rw [Engine.remove] at h
  dsimp only at h
  split at h
  · simp only [Except.ok.injEq, Prod.mk.injEq] at h
    rw [← h.2]
  · split at h
    · exact absurd h (by simp)
    · split at h
      · exact absurd h (by simp)
      · simp only [Except.ok.injEq, Prod.mk.injEq] at h
        rw [← h.2]
        show (setBook _ _ _).last_tick = _
        rw [setBook_last_tick]

lemma insert_ne_nmt (e : Engine) (o : Order) :
    e.insert o ≠ Except.error EngineError.NonMonotonicTime := by
  intro h
  rw [Engine.insert] at h
  dsimp only at h
  split at h
  all_goals simp at h

lemma insert_last_tick (e : Engine) (o : Order) (e' : Engine)
    (h : e.insert o = .ok e') : e'.last_tick = e.last_tick := by
  rw [Engine.insert] at h
  dsimp only at h
  split at h
  · exact absurd h (by simp)
  · simp only [Except.ok.injEq] at h
    rw [← h]
    rw [setBook_last_tick]

lemma removeAll_ne_nmt (e : Engine) (us : List Uuid) :
    e.removeAll us ≠ Except.error EngineError.NonMonotonicTime := by
  induction us generalizing e with
  | nil => simp [Engine.removeAll]
  | cons u rest ih =>
      rw [Engine.removeAll]
      cases h : e.remove u with
      | error err =>
          simp only [bindE_error]
          intro heq
          have herr : err = EngineError.NonMonotonicTime := by simpa using heq
          rw [herr] at h
          exact remove_ne_nmt e u h
      | ok r =>
          simp only [bindE_ok]
          exact ih r.2

lemma removeAll_last_tick (e : Engine) (us : List Uuid) (e' : Engine)
    (h : e.removeAll us = .ok e') : e'.last_tick = e.last_tick := by
  induction us generalizing e with
  | nil =>
      rw [Engine.removeAll] at h
      simp only [Except.ok.injEq] at h
      rw [← h]
  | cons u rest ih =>
      rw [Engine.removeAll] at h
      cases hr : e.remove u with
      | error err => rw [hr] at h; exact absurd h (by simp)
      | ok r =>
          rw [hr, bindE_ok] at h
          rw [ih r.2 h, remove_last_tick e u r.1 r.2 hr]

lemma flush_ne_nmt (e : Engine) (now : Nat) :
    e.flush now ≠ Except.error EngineError.NonMonotonicTime := by
  rw [Engine.flush]
  cases h : e.removeAll (collectExpired now e.expiry_to_uuid) with
  | error err =>
      simp only [bindE_error]
      intro heq
      have herr : err = EngineError.NonMonotonicTime := by simpa using heq
      rw [herr] at h
      exact removeAll_ne_nmt e _ h
  | ok e1 =>
      simp only [bindE_ok]
      simp

lemma flush_last_tick (e : Engine) (now : Nat) (s : List Uuid) (e' : Engine)
    (h : e.flush now = .ok (s, e')) : e'.last_tick = e.last_tick := by
  rw [Engine.flush] at h
  cases hr : e.removeAll (collectExpired now e.expiry_to_uuid) with
  | error err => rw [hr] at h; exact absurd h (by simp)
  | ok e1 =>
      rw [hr, bindE_ok] at h
      simp only [Except.ok.injEq, Prod.mk.injEq] at h
      rw [← h.2]
      exact removeAll_last_tick _ _ _ hr

lemma place_ne_nmt (e : Engine) (p : Place) (now : Nat) :
    e.place p now ≠ Except.error EngineError.NonMonotonicTime := by
  rw [Engine.place]
  cases h : (e._match (Order.create p now)).2.1.removeAll
      ((e._match (Order.create p now)).2.2.closed) with
  | error err =>
      simp only [bindE_error]
      intro heq
      have herr : err = EngineError.NonMonotonicTime := by simpa using heq
      rw [herr] at h
      exact removeAll_ne_nmt _ _ h
  | ok e2 =>
      simp only [bindE_ok]
      split
      · simp
      · cases hi : e2.insert (e._match (Order.create p now)).1 with
        | error err =>
            simp only [bindE_error]
            intro heq
            have herr : err = EngineError.NonMonotonicTime := by simpa using heq
            rw [herr] at hi
            exact insert_ne_nmt _ _ hi
        | ok e3 =>
            simp only [bindE_ok]
            simp

lemma place_last_tick (e : Engine) (p : Place) (now : Nat) (e' : Engine) (r : MatchResult)
    (h : e.place p now = .ok (e', r)) : e'.last_tick = e.last_tick := by
  rw [Engine.place] at h
  cases hra : (e._match (Order.create p now)).2.1.removeAll
      ((e._match (Order.create p now)).2.2.closed) with
  | error err => rw [hra] at h; exact absurd h (by simp)
  | ok e2 =>
      rw [hra, bindE_ok] at h
      have h2 : e2.last_tick = e.last_tick := by
        rw [removeAll_last_tick _ _ _ hra, match_last_tick]
      split at h
      · simp only [Except.ok.injEq, Prod.mk.injEq] at h
        rw [← h.1]
        exact h2
      · cases hi : e2.insert (e._match (Order.create p now)).1 with
        | error err => rw [hi] at h; exact absurd h (by simp)
        | ok e3 =>
            rw [hi, bindE_ok] at h
            simp only [Except.ok.injEq, Prod.mk.injEq] at h
            rw [← h.1, insert_last_tick _ _ _ hi]
            exact h2

lemma cancel_ne_nmt (e : Engine) (u : Uuid) :
    e.cancel u ≠ Except.error EngineError.NonMonotonicTime := by
  rw [Engine.cancel]
  cases h : e.remove u with
  | error err =>
      simp only [bindE_error]
      intro heq
      have herr : err = EngineError.NonMonotonicTime := by simpa using heq
      rw [herr] at h
      exact remove_ne_nmt e u h
  | ok r =>
      simp only [bindE_ok]
      split <;> simp

lemma cancel_last_tick (e : Engine) (u : Uuid) (s : List Uuid) (e' : Engine)
    (h : e.cancel u = .ok (s, e')) : e'.last_tick = e.last_tick := by
  rw [Engine.cancel] at h
  cases hr : e.remove u with
  | error err => rw [hr] at h; exact absurd h (by simp)
  | ok r =>
      rw [hr, bindE_ok] at h
      split at h
      all_goals simp only [Except.ok.injEq, Prod.mk.injEq] at h
      all_goals rw [← h.2]
      all_goals exact remove_last_tick _ _ _ _ hr

/-- C7: a command fails with NonMonotonicTime exactly when now ≤ last_tick
(and then there is no resulting state at all), and when now > last_tick the
clock is advanced before processing: every successful result has
last_tick = now. -/
theorem claim7_clock_monotonicity (e : Engine) (c : CommandAtTime) :
    (e.call c = .error .NonMonotonicTime ↔ c.now ≤ e.last_tick) ∧
    (∀ e' r, e.call c = .ok (e', r) → e'.last_tick = c.now) := by
  obtain ⟨now, cmd⟩ := c
  by_cases h : now ≤ e.last_tick
  · refine ⟨⟨fun _ => h, fun _ => ?_⟩, fun e' r hok => ?_⟩
    · rw [Engine.call, if_pos h]
    · rw [Engine.call, if_pos h] at hok
      exact absurd hok (by simp)
  · refine ⟨⟨fun hcall => ?_, fun hle => absurd hle h⟩, fun e' r hok => ?_⟩
    · rw [Engine.call, if_neg h] at hcall
      cases cmd with
      | Place p =>
          dsimp only at hcall
          cases hf : Engine.flush { e with last_tick := now } now with
          | error err =>
              rw [hf] at hcall
              simp only [bindE_error] at hcall
              have herr : err = EngineError.NonMonotonicTime := by simpa using hcall
              rw [herr] at hf
              exact absurd hf (flush_ne_nmt _ _)
          | ok f =>
              rw [hf, bindE_ok] at hcall
              cases hp : f.2.place p now with
              | error err =>
                  rw [hp] at hcall
                  simp only [bindE_error] at hcall
                  have herr : err = EngineError.NonMonotonicTime := by simpa using hcall
                  rw [herr] at hp
                  exact absurd hp (place_ne_nmt _ _ _)
              | ok pr =>
                  rw [hp, bindE_ok] at hcall
                  exact absurd hcall (by simp)
      | Cancel u =>
          dsimp only at hcall
          cases hf : Engine.flush { e with last_tick := now } now with
          | error err =>
              rw [hf] at hcall
              simp only [bindE_error] at hcall
              have herr : err = EngineError.NonMonotonicTime := by simpa using hcall
              rw [herr] at hf
              exact absurd hf (flush_ne_nmt _ _)
          | ok f =>
              rw [hf, bindE_ok] at hcall
              cases hp : f.2.cancel u with
              | error err =>
                  rw [hp] at hcall
                  simp only [bindE_error] at hcall
                  have herr : err = EngineError.NonMonotonicTime := by simpa using hcall
                  rw [herr] at hp
                  exact absurd hp (cancel_ne_nmt _ _)
              | ok cr =>
                  rw [hp, bindE_ok] at hcall
                  exact absurd hcall (by simp)
      | Flush =>
          dsimp only at hcall
          cases hf : Engine.flush { e with last_tick := now } now with
          | error err =>
              rw [hf] at hcall
              simp only [bindE_error] at hcall
              have herr : err = EngineError.NonMonotonicTime := by simpa using hcall
              rw [herr] at hf
              exact absurd hf (flush_ne_nmt _ _)
          | ok f =>
              rw [hf, bindE_ok] at hcall
              exact absurd hcall (by simp)
    · rw [Engine.call, if_neg h] at hok
      cases cmd with
      | Place p =>
          dsimp only at hok
          cases hf : Engine.flush { e with last_tick := now } now with
          | error err => rw [hf] at hok; exact absurd hok (by simp)
          | ok f =>
              rw [hf, bindE_ok] at hok
              cases hp : f.2.place p now with
              | error err => rw [hp] at hok; exact absurd hok (by simp)
              | ok pr =>
                  rw [hp, bindE_ok] at hok
                  simp only [Except.ok.injEq, Prod.mk.injEq] at hok
                  rw [← hok.1]
                  rw [place_last_tick _ _ _ _ _ hp]
                  rw [flush_last_tick _ _ f.1 f.2 hf]
      | Cancel u =>
          dsimp only at hok
          cases hf : Engine.flush { e with last_tick := now } now with
          | error err => rw [hf] at hok; exact absurd hok (by simp)
          | ok f =>
              rw [hf, bindE_ok] at hok
              cases hp : f.2.cancel u with
              | error err => rw [hp] at hok; exact absurd hok (by simp)
              | ok cr =>
                  rw [hp, bindE_ok] at hok
                  simp only [Except.ok.injEq, Prod.mk.injEq] at hok
                  rw [← hok.1]
                  rw [cancel_last_tick _ _ cr.1 cr.2 hp]
                  rw [flush_last_tick _ _ f.1 f.2 hf]
      | Flush =>
          dsimp only at hok
          cases hf : Engine.flush { e with last_tick := now } now with
          | error err => rw [hf] at hok; exact absurd hok (by simp)
          | ok f =>
              rw [hf, bindE_ok] at hok
              simp only [Except.ok.injEq, Prod.mk.injEq] at hok
              rw [← hok.1]
              rw [flush_last_tick _ _ f.1 f.2 hf]

/-- C6 (code-bug evidence): placing two GTD orders whose expiries collide
(created 1 + lifetime 10 = created 2 + lifetime 9 = 11) leaves both orders
resting while the one-to-one expiry index holds only the second id — the
claimed id_index/expiry_index/book bijection is broken — and the engine's
own consistency assert then fails (InternalInconsistency) when the two
orders are subsequently cancelled. -/
theorem claim6_expiry_overwrite :
    (runList Engine.new
      [{ now := 1, command := .Place (.LimitOrder 1 .Sell 1 (.GTD 10) 100) },
       { now := 2, command := .Place (.LimitOrder 2 .Sell 1 (.GTD 9) 100) }]).map
      (fun e => ((e.sell.map fun kv => kv.2.uuid),
        e.uuid_to_side_price_time.map Prod.fst, e.expiry_to_uuid)) =
      .ok ([1, 2], [1, 2], [(11, 2)]) ∧
    runList Engine.new
      [{ now := 1, command := .Place (.LimitOrder 1 .Sell 1 (.GTD 10) 100) },
       { now := 2, command := .Place (.LimitOrder 2 .Sell 1 (.GTD 9) 100) },
       { now := 3, command := .Cancel 1 },
       { now := 4, command := .Cancel 2 }] = .error .InternalInconsistency := by
  constructor
  · decide
  · decide

/-- C8 (counterexample to the original claim): placing an order whose id
is currently live does NOT always fail with DuplicateId: with the GTC buy
id 5 resting (the first conjunct shows it is exactly the result of placing
it on the empty engine), placing an IOC buy with the same id 5 succeeds,
returns closed = [5], and silently removes the resting order with that id
from the book and from both indices (the resulting engine is empty). -/
theorem claim8_counterexample :
    Engine.new.call ⟨1, .Place (.LimitOrder 5 .Buy 1 .GTC 100)⟩ =
      .ok (engineBuy5, { fills := [], closed := [] }) ∧
    engineBuy5.call ⟨2, .Place (.LimitOrder 5 .Buy 1 .IOC 50)⟩ =
      .ok ({ buy := [], sell := [], last_tick := 2,
             uuid_to_side_price_time := [], expiry_to_uuid := [] },
           { fills := [], closed := [5] }) := by
  constructor
  · decide
  · decide

/-! ## Association-list and ordering lemmas -/

lemma alookup_mem {K V : Type} [DecidableEq K] (k : K) (v : V) (l : List (K × V))
    (h : alookup k l = some v) : (k, v) ∈ l := by
  induction l with
  | nil => simp [alookup] at h
  | cons p rest ih =>
      rw [alookup] at h
      split at h
      · rename_i hk
        simp only [Option.some.injEq] at h
        subst hk h
        exact List.mem_cons_self _ _
      · exact List.mem_cons_of_mem _ (ih h)

lemma alookup_eq_none {K V : Type} [DecidableEq K] (k : K) (l : List (K × V)) :
    alookup k l = none ↔ k ∉ l.map Prod.fst := by
  induction l with
  | nil => simp [alookup]
  | cons p rest ih =>
      rw [alookup]
      split
      · rename_i hk
        subst hk
        simp
      · rename_i hk
        simp [ih, hk]

lemma alookup_of_mem_nodup {K V : Type} [DecidableEq K] (k : K) (v : V) (l : List (K × V))
    (hd : (l.map Prod.fst).Nodup) (h : (k, v) ∈ l) : alookup k l = some v := by
  induction l with
  | nil => simp at h
  | cons p rest ih =>
      simp only [List.map_cons, List.nodup_cons] at hd
      rcases List.mem_cons.mp h with h1 | h1
      · rw [← h1, alookup, if_pos rfl]
      · rw [alookup]
        split
        · rename_i hk
          subst hk
          exact absurd (List.mem_map.mpr ⟨(p.1, v), h1, rfl⟩) hd.1
        · exact ih hd.2 h1

lemma mapRemove_fst {K V : Type} [DecidableEq K] (k : K) (l : List (K × V)) :
    (mapRemove k l).1 = alookup k l := by
  induction l with
  | nil => rfl
  | cons p rest ih =>
      rw [mapRemove, alookup]
      split
      · rfl
      · exact ih

lemma mapRemove_not_mem {K V : Type} [DecidableEq K] (k : K) (l : List (K × V))
    (h : alookup k l = none) : (mapRemove k l).2 = l := by
  induction l with
  | nil => rfl
  | cons p rest ih =>
      rw [alookup] at h
      split at h
      · exact absurd h (by simp)
      · rename_i hk
        rw [mapRemove, if_neg hk]
        simp [ih h]

lemma mapRemove_filter {K V : Type} [DecidableEq K] (k : K) (l : List (K × V))
    (hd : (l.map Prod.fst).Nodup) :
    (mapRemove k l).2 = l.filter (fun p => ¬ p.1 = k) := by
  induction l with
  | nil => rfl
  | cons p rest ih =>
      simp only [List.map_cons, List.nodup_cons] at hd
      rw [mapRemove]
      split
      · rename_i hk
        subst hk
        rw [List.filter_cons_of_neg (by simp)]
        rw [List.filter_eq_self.mpr]
        intro q hq
        simp only [decide_eq_true_eq]
        intro hqk
        exact hd.1 (List.mem_map.mpr ⟨q, hq, hqk⟩)
      · rename_i hk
        rw [List.filter_cons_of_pos (by simpa using fun h => hk h.symm)]
        simp [ih hd.2]

lemma hashInsert_fst {K V : Type} [DecidableEq K] (k : K) (v : V) (l : List (K × V)) :
    (hashInsert k v l).1 = alookup k l := by
  induction l with
  | nil => rfl
  | cons p rest ih =>
      rw [hashInsert, alookup]
      split
      · rfl
      · exact ih

lemma alookup_filter {K V : Type} [DecidableEq K] (k : K) (l : List (K × V))
    (pred : K × V → Bool) (h : ∀ p ∈ l, p.1 = k → pred p = true) :
    alookup k (l.filter pred) = alookup k l := by
  induction l with
  | nil => rfl
  | cons p rest ih =>
      have hrest : ∀ q ∈ rest, q.1 = k → pred q = true :=
        fun q hq => h q (List.mem_cons_of_mem _ hq)
      by_cases hk : p.1 = k
      · rw [List.filter_cons_of_pos (h p (List.mem_cons_self _ _) hk)]
        rw [alookup, alookup]
        rw [if_pos hk.symm, if_pos hk.symm]
      · cases hp : pred p with
        | true =>
            rw [List.filter_cons_of_pos hp, alookup, alookup,
              if_neg (fun hc => hk hc.symm), if_neg (fun hc => hk hc.symm)]
            exact ih hrest
        | false =>
            rw [List.filter_cons_of_neg (by simp [hp]), alookup,
              if_neg (fun hc => hk hc.symm)]
            exact ih hrest

lemma mem_btreeInsert {K V : Type} [DecidableEq K] (lt : K → K → Bool) (k : K) (v : V)
    (l : List (K × V)) (kv : K × V) (h : kv ∈ btreeInsert lt k v l) :
    kv = (k, v) ∨ kv ∈ l := by
  induction l with
  | nil => simp [btreeInsert] at h; exact Or.inl h
  | cons p rest ih =>
      rw [btreeInsert] at h
      split at h
      · rcases List.mem_cons.mp h with h1 | h1
        · exact Or.inl h1
        · exact Or.inr h1
      · split at h
        · rcases List.mem_cons.mp h with h1 | h1
          · exact Or.inl h1
          · exact Or.inr (List.mem_cons_of_mem _ h1)
        · rcases List.mem_cons.mp h with h1 | h1
          · exact Or.inr (h1 ▸ List.mem_cons_self _ _)
          · rcases ih h1 with h2 | h2
            · exact Or.inl h2
            · exact Or.inr (List.mem_cons_of_mem _ h2)

lemma ltb_trans (a b c : PriceTime) (h1 : PriceTime.ltb a b = true)
    (h2 : PriceTime.ltb b c = true) : PriceTime.ltb a c = true := by
  rw [PriceTime.ltb] at *
  simp only [Bool.or_eq_true, Bool.and_eq_true, decide_eq_true_eq] at *
  rcases h1 with h1 | ⟨h1e, h1t⟩ <;> rcases h2 with h2 | ⟨h2e, h2t⟩
  · exact Or.inl (lt_trans h1 h2)
  · exact Or.inl (h2e ▸ h1)
  · exact Or.inl (h1e ▸ h2)
  · exact Or.inr ⟨h1e.trans h2e, lt_trans h1t h2t⟩

lemma ltb_ne (a b : PriceTime) (h : PriceTime.ltb a b = true) : a ≠ b := by
  intro he
  subst he
  rw [PriceTime.ltb] at h
  simp at h

lemma chain'_pairwise_keys {l : List (PriceTime × Order)}
    (h : List.Chain' (fun a b => PriceTime.ltb a.1 b.1 = true) l) :
    List.Pairwise (fun a b : PriceTime × Order => PriceTime.ltb a.1 b.1 = true) l := by
  haveI : IsTrans (PriceTime × Order) (fun a b => PriceTime.ltb a.1 b.1 = true) :=
    ⟨fun _ _ _ h1 h2 => ltb_trans _ _ _ h1 h2⟩
  exact List.chain'_iff_pairwise.mp h

lemma chain'_keys_nodup {l : List (PriceTime × Order)}
    (h : List.Chain' (fun a b => PriceTime.ltb a.1 b.1 = true) l) :
    (l.map Prod.fst).Nodup := by
  exact ((chain'_pairwise_keys h).map Prod.fst (fun a b hab => hab)).imp
    (fun hab => ltb_ne _ _ hab)

lemma chain'_exp_pairwise {l : List (Nat × Uuid)}
    (h : List.Chain' (fun a b : Nat × Uuid => a.1 < b.1) l) :
    List.Pairwise (fun a b : Nat × Uuid => a.1 < b.1) l := by
  haveI : IsTrans (Nat × Uuid) (fun a b : Nat × Uuid => a.1 < b.1) :=
    ⟨fun _ _ _ h1 h2 => lt_trans h1 h2⟩
  exact List.chain'_iff_pairwise.mp h

lemma chain'_exp_nodup {l : List (Nat × Uuid)}
    (h : List.Chain' (fun a b : Nat × Uuid => a.1 < b.1) l) :
    (l.map Prod.fst).Nodup := by
  exact ((chain'_exp_pairwise h).map Prod.fst (fun a b hab => hab)).imp
    (fun hab => Nat.ne_of_lt hab)

/-! ## Consequences of the engine invariant -/

lemma side_ok (e : Engine) (hwf : WF e) (s : Side) :
    bookSideOK s (bookOf e s) e.uuid_to_side_price_time e.expiry_to_uuid := by
  cases s
  · exact hwf.buy_ok
  · exact hwf.sell_ok

lemma side_sorted (e : Engine) (hwf : WF e) (s : Side) :
    List.Chain' (fun a b => PriceTime.ltb a.1 b.1 = true) (bookOf e s) := by
  cases s
  · exact hwf.buy_sorted
  · exact hwf.sell_sorted

lemma book_entry_eq {l : List (PriceTime × Order)}
    (h : List.Chain' (fun a b => PriceTime.ltb a.1 b.1 = true) l)
    (kv kv' : PriceTime × Order) (hkv : kv ∈ l) (hkv' : kv' ∈ l)
    (hk : kv.1 = kv'.1) : kv = kv' :=
  List.inj_on_of_nodup_map (chain'_keys_nodup h) hkv hkv' hk

lemma orderKey_congr (o1 o2 : Order) (hs : o1.side = o2.side) (hp : o1.price = o2.price)
    (hc : o1.created = o2.created) : orderKey o1 = orderKey o2 := by
  rw [orderKey, orderKey, hs, hp, hc]

lemma book_uuid_unique (e : Engine) (hwf : WF e) (s1 s2 : Side)
    (kv1 kv2 : PriceTime × Order) (h1 : kv1 ∈ bookOf e s1) (h2 : kv2 ∈ bookOf e s2)
    (hu : kv1.2.uuid = kv2.2.uuid) : s1 = s2 ∧ kv1 = kv2 := by
  have hA := side_ok e hwf s1 kv1 h1
  have hB := side_ok e hwf s2 kv2 h2
  have hl := hA.2.2.1
  rw [hu, hB.2.2.1] at hl
  simp only [Option.some.injEq, SidePriceTime.mk.injEq] at hl
  obtain ⟨hss, hpp, hcc⟩ := hl
  refine ⟨hss.symm, ?_⟩
  rw [hss] at h2
  have hkey : kv1.1 = kv2.1 := by
    rw [hA.2.1, hB.2.1]
    exact orderKey_congr _ _ (hA.1.trans (hB.1.trans hss).symm) hpp.symm hcc.symm
  exact book_entry_eq (side_sorted e hwf s1) kv1 kv2 h1 h2 hkey

lemma bookOf_set_idx (e : Engine) (s : Side) (idx : List (Uuid × SidePriceTime)) :
    bookOf { e with uuid_to_side_price_time := idx } s = bookOf e s := by
  cases s <;> rfl

lemma setBook_idx (e : Engine) (s : Side) (b : List (PriceTime × Order)) :
    (setBook e s b).uuid_to_side_price_time = e.uuid_to_side_price_time := by
  cases s <;> rfl

lemma setBook_expiry (e : Engine) (s : Side) (b : List (PriceTime × Order)) :
    (setBook e s b).expiry_to_uuid = e.expiry_to_uuid := by
  cases s <;> rfl

lemma bookOf_setBook_other (e : Engine) (s s' : Side) (b : List (PriceTime × Order))
    (h : s ≠ s') : bookOf (setBook e s b) s' = bookOf e s' := by
  cases s <;> cases s' <;> first | exact absurd rfl h | rfl

lemma no_uuid_of_alookup_none (e : Engine) (hwf : WF e) (u : Uuid)
    (hl : alookup u e.uuid_to_side_price_time = none) :
    ∀ s, ∀ kv ∈ bookOf e s, kv.2.uuid ≠ u := by
  intro s kv hkv hc
  have h := (side_ok e hwf s kv hkv).2.2.1
  rw [hc, hl] at h
  exact absurd h (by simp)

lemma eraseUuid_eq_self (e : Engine) (hwf : WF e) (u : Uuid)
    (hl : alookup u e.uuid_to_side_price_time = none) : eraseUuid e u = e := by
  have hbuy : e.buy.filter (fun kv => ¬ kv.2.uuid = u) = e.buy :=
    List.filter_eq_self.mpr fun kv hkv => by
      simpa using no_uuid_of_alookup_none e hwf u hl .Buy kv hkv
  have hsell : e.sell.filter (fun kv => ¬ kv.2.uuid = u) = e.sell :=
    List.filter_eq_self.mpr fun kv hkv => by
      simpa using no_uuid_of_alookup_none e hwf u hl .Sell kv hkv
  have hidx : e.uuid_to_side_price_time.filter (fun p => ¬ p.1 = u) =
      e.uuid_to_side_price_time :=
    List.filter_eq_self.mpr fun p hp => by
      simp only [decide_eq_true_eq]
      intro hc
      exact (alookup_eq_none _ _).mp hl (List.mem_map.mpr ⟨p, hp, hc⟩)
  have hexp : e.expiry_to_uuid.filter (fun q => ¬ q.2 = u) = e.expiry_to_uuid :=
    List.filter_eq_self.mpr fun q hq => by
      simp only [decide_eq_true_eq]
      intro hc
      rcases hwf.exp_to_book q hq with ⟨kv, hkv, hku, _⟩ | ⟨kv, hkv, hku, _⟩
      · exact no_uuid_of_alookup_none e hwf u hl .Buy kv hkv (hku.trans hc)
      · exact no_uuid_of_alookup_none e hwf u hl .Sell kv hkv (hku.trans hc)
  rw [eraseUuid, hbuy, hsell, hidx, hexp]

/-- `Engine::remove` under the invariant: it returns whether the id was
found, and the state with the id erased from all three structures. -/
lemma remove_spec (e : Engine) (u : Uuid) (hwf : WF e) :
    e.remove u = .ok ((alookup u e.uuid_to_side_price_time).isSome, eraseUuid e u) := by
  cases hl : alookup u e.uuid_to_side_price_time with
  | none =>
      rw [Engine.remove]
      dsimp only
      rw [mapRemove_fst, hl, mapRemove_not_mem _ _ hl]
      rw [eraseUuid_eq_self e hwf u hl]
      rfl
  | some spt =>
      obtain ⟨kv, hkv, hkvu, hkvp, hkvc⟩ :=
        hwf.idx_to_book (u, spt) (alookup_mem _ _ _ hl)
      dsimp only at hkv hkvu hkvp hkvc
      have hsok := side_ok e hwf spt.side kv hkv
      have hkey : kv.1 = sptKey spt := by
        rw [hsok.2.1, orderKey, sptKey, hsok.1, hkvp, hkvc]
      have hbl : alookup (sptKey spt) (bookOf e spt.side) = some kv.2 := by
        apply alookup_of_mem_nodup _ _ _ (chain'_keys_nodup (side_sorted e hwf spt.side))
        rw [← hkey]
        exact hkv
      have hel : alookup kv.2.expiry e.expiry_to_uuid = some u := by
        rw [← hkvu]
        exact hsok.2.2.2
      -- the walked-book filter: by key equals by uuid
      have hbfilter : (bookOf e spt.side).filter (fun kv' => ¬ kv'.1 = sptKey spt) =
          (bookOf e spt.side).filter (fun kv' => ¬ kv'.2.uuid = u) := by
        apply List.filter_congr
        intro kv' hkv'
        simp only [decide_eq_true_eq, decide_eq_decide]
        constructor
        · intro hne hc
          apply hne
          have := book_uuid_unique e hwf spt.side spt.side kv' kv hkv' hkv (hc.trans hkvu.symm)
          rw [this.2, hkey]
        · intro hne hc
          apply hne
          have heq : kv' = kv := book_entry_eq (side_sorted e hwf spt.side) kv' kv hkv' hkv
            (hc.trans hkey.symm)
          rw [heq, hkvu]
      -- the untouched book side is already uuid-free
      have hother : ∀ s, s ≠ spt.side → (bookOf e s).filter (fun kv' => ¬ kv'.2.uuid = u) =
          bookOf e s := by
        intro s hs
        apply List.filter_eq_self.mpr
        intro kv' hkv'
        simp only [decide_eq_true_eq]
        intro hc
        have := book_uuid_unique e hwf s spt.side kv' kv hkv' hkv (hc.trans hkvu.symm)
        exact hs this.1
      -- the expiry filter: by key equals by value
      have hefilter : e.expiry_to_uuid.filter (fun q => ¬ q.1 = kv.2.expiry) =
          e.expiry_to_uuid.filter (fun q => ¬ q.2 = u) := by
        apply List.filter_congr
        intro q hq
        simp only [decide_eq_true_eq, decide_eq_decide]
        constructor
        · intro hne hc
          apply hne
          have hq2 : alookup q.1 e.expiry_to_uuid = some q.2 :=
            alookup_of_mem_nodup _ _ _ (chain'_exp_nodup hwf.exp_sorted) hq
          rcases hwf.exp_to_book q hq with ⟨kv', hkv', hku, hke⟩ | ⟨kv', hkv', hku, hke⟩
          · have := book_uuid_unique e hwf .Buy spt.side kv' kv hkv' hkv
              ((hku.trans hc).trans hkvu.symm)
            rw [← hke, this.2]
          · have := book_uuid_unique e hwf .Sell spt.side kv' kv hkv' hkv
              ((hku.trans hc).trans hkvu.symm)
            rw [← hke, this.2]
        · intro hne hc
          apply hne
          have hq2 : alookup q.1 e.expiry_to_uuid = some q.2 :=
            alookup_of_mem_nodup _ _ _ (chain'_exp_nodup hwf.exp_sorted) hq
          rw [hc, hel] at hq2
          exact (Option.some_injective _ hq2).symm
      rw [Engine.remove]
      dsimp only
      rw [mapRemove_fst, hl]
      dsimp only
      rw [bookOf_set_idx, mapRemove_fst, hbl]
      dsimp only
      rw [setBook_expiry, mapRemove_fst, hel]
      dsimp only
      rw [mapRemove_filter _ _ hwf.idx_nodup,
        mapRemove_filter _ _ (chain'_keys_nodup (side_sorted e hwf spt.side)),
        mapRemove_filter _ _ (chain'_exp_nodup hwf.exp_sorted), hbfilter, hefilter]
      cases hs : spt.side with
      | Buy =>
          have hsf := hother .Sell (by rw [hs]; simp)
          dsimp only [bookOf] at hsf ⊢
          dsimp only [setBook]
          rw [eraseUuid, hsf]
          rfl
      | Sell =>
          have hbf := hother .Buy (by rw [hs]; simp)
          dsimp only [bookOf] at hbf ⊢
          dsimp only [setBook]
          rw [eraseUuid, hbf]
          rfl

lemma bookOf_eraseUuid (e : Engine) (u : Uuid) (s : Side) :
    bookOf (eraseUuid e u) s = (bookOf e s).filter (fun kv => ¬ kv.2.uuid = u) := by
  cases s <;> rfl

lemma exp_value_at_key (e : Engine) (hwf : WF e) (t : Nat) (v : Uuid)
    (q : Nat × Uuid) (hq : q ∈ e.expiry_to_uuid) (hkey : q.1 = t)
    (hv : alookup t e.expiry_to_uuid = some v) : q.2 = v := by
  have h1 : alookup q.1 e.expiry_to_uuid = some q.2 :=
    alookup_of_mem_nodup _ _ _ (chain'_exp_nodup hwf.exp_sorted) hq
  rw [hkey, hv] at h1
  exact (Option.some_injective _ h1).symm

lemma WF_eraseUuid (e : Engine) (hwf : WF e) (u : Uuid) : WF (eraseUuid e u) := by
  have hbuy : (eraseUuid e u).buy = e.buy.filter (fun kv => ¬ kv.2.uuid = u) := rfl
  have hsell : (eraseUuid e u).sell = e.sell.filter (fun kv => ¬ kv.2.uuid = u) := rfl
  have hidx : (eraseUuid e u).uuid_to_side_price_time =
      e.uuid_to_side_price_time.filter (fun p => ¬ p.1 = u) := rfl
  have hexp : (eraseUuid e u).expiry_to_uuid =
      e.expiry_to_uuid.filter (fun q => ¬ q.2 = u) := rfl
  have hidxlook : ∀ k, k ≠ u →
      alookup k ((eraseUuid e u).uuid_to_side_price_time) =
        alookup k e.uuid_to_side_price_time := by
    intro k hk
    rw [hidx]
    apply alookup_filter
    intro p _ hp
    simp only [decide_eq_true_eq]
    rw [hp]
    exact hk
  have hexplook : ∀ t v, v ≠ u → alookup t e.expiry_to_uuid = some v →
      alookup t ((eraseUuid e u).expiry_to_uuid) = some v := by
    intro t v hv hl
    rw [hexp]
    rw [alookup_filter]
    · exact hl
    · intro q hq hqt
      simp only [decide_eq_true_eq]
      rw [exp_value_at_key e hwf t v q hq hqt hl]
      exact hv
  have hsideok : ∀ s, bookSideOK s (bookOf (eraseUuid e u) s)
      (eraseUuid e u).uuid_to_side_price_time (eraseUuid e u).expiry_to_uuid := by
    intro s kv hkv
    rw [bookOf_eraseUuid] at hkv
    have hm := List.mem_filter.mp hkv
    have hne : kv.2.uuid ≠ u := by simpa using hm.2
    have hold := side_ok e hwf s kv hm.1
    refine ⟨hold.1, hold.2.1, ?_, ?_⟩
    · rw [hidxlook kv.2.uuid hne]
      exact hold.2.2.1
    · exact hexplook _ _ hne hold.2.2.2
  refine ⟨?_, ?_, ?_, ?_, hsideok .Buy, hsideok .Sell, ?_, ?_⟩
  · haveI : IsTrans (PriceTime × Order) (fun a b => PriceTime.ltb a.1 b.1 = true) :=
      ⟨fun _ _ _ h1 h2 => ltb_trans _ _ _ h1 h2⟩
    exact hwf.buy_sorted.sublist (List.filter_sublist _)
  · haveI : IsTrans (PriceTime × Order) (fun a b => PriceTime.ltb a.1 b.1 = true) :=
      ⟨fun _ _ _ h1 h2 => ltb_trans _ _ _ h1 h2⟩
    exact hwf.sell_sorted.sublist (List.filter_sublist _)
  · haveI : IsTrans (Nat × Uuid) (fun a b : Nat × Uuid => a.1 < b.1) :=
      ⟨fun _ _ _ h1 h2 => lt_trans h1 h2⟩
    exact hwf.exp_sorted.sublist (List.filter_sublist _)
  · exact hwf.idx_nodup.sublist ((List.filter_sublist _).map Prod.fst)
  · intro p hp
    rw [hidx] at hp
    have hm := List.mem_filter.mp hp
    have hne : p.1 ≠ u := by simpa using hm.2
    obtain ⟨kv, hkv, hku, hkp, hkc⟩ := hwf.idx_to_book p hm.1
    refine ⟨kv, ?_, hku, hkp, hkc⟩
    rw [bookOf_eraseUuid]
    exact List.mem_filter.mpr ⟨hkv, by simp [hku, hne]⟩
  · intro q hq
    rw [hexp] at hq
    have hm := List.mem_filter.mp hq
    have hne : q.2 ≠ u := by simpa using hm.2
    rcases hwf.exp_to_book q hm.1 with ⟨kv, hkv, hku, hke⟩ | ⟨kv, hkv, hku, hke⟩
    · refine Or.inl ⟨kv, ?_, hku, hke⟩
      rw [hbuy]
      exact List.mem_filter.mpr ⟨hkv, by simp [hku, hne]⟩
    · refine Or.inr ⟨kv, ?_, hku, hke⟩
      rw [hsell]
      exact List.mem_filter.mpr ⟨hkv, by simp [hku, hne]⟩

lemma removeAll_spec (e : Engine) (us : List Uuid) (hwf : WF e) :
    e.removeAll us = .ok (eraseUuids e us) ∧ WF (eraseUuids e us) := by
  induction us generalizing e with
  | nil => exact ⟨rfl, hwf⟩
  | cons u rest ih =>
      rw [Engine.removeAll, remove_spec e u hwf, bindE_ok]
      exact ih (eraseUuid e u) (WF_eraseUuid e hwf u)

lemma eraseUuids_buy (e : Engine) (us : List Uuid) :
    (eraseUuids e us).buy = e.buy.filter (fun kv => ¬ kv.2.uuid ∈ us) := by
  induction us generalizing e with
  | nil => simp [eraseUuids]
  | cons u rest ih =>
      show (eraseUuids (eraseUuid e u) rest).buy = _
      rw [ih]
      show (e.buy.filter (fun kv => ¬ kv.2.uuid = u)).filter _ = _
      rw [List.filter_filter]
      apply List.filter_congr
      intro x _
      simp only [List.mem_cons, ← Bool.decide_and, decide_eq_decide]
      tauto

lemma eraseUuids_sell (e : Engine) (us : List Uuid) :
    (eraseUuids e us).sell = e.sell.filter (fun kv => ¬ kv.2.uuid ∈ us) := by
  induction us generalizing e with
  | nil => simp [eraseUuids]
  | cons u rest ih =>
      show (eraseUuids (eraseUuid e u) rest).sell = _
      rw [ih]
      show (e.sell.filter (fun kv => ¬ kv.2.uuid = u)).filter _ = _
      rw [List.filter_filter]
      apply List.filter_congr
      intro x _
      simp only [List.mem_cons, ← Bool.decide_and, decide_eq_decide]
      tauto

lemma eraseUuids_idx (e : Engine) (us : List Uuid) :
    (eraseUuids e us).uuid_to_side_price_time =
      e.uuid_to_side_price_time.filter (fun p => ¬ p.1 ∈ us) := by
  induction us generalizing e with
  | nil => simp [eraseUuids]
  | cons u rest ih =>
      show (eraseUuids (eraseUuid e u) rest).uuid_to_side_price_time = _
      rw [ih]
      show (e.uuid_to_side_price_time.filter (fun p => ¬ p.1 = u)).filter _ = _
      rw [List.filter_filter]
      apply List.filter_congr
      intro x _
      simp only [List.mem_cons, ← Bool.decide_and, decide_eq_decide]
      tauto

lemma eraseUuids_exp (e : Engine) (us : List Uuid) :
    (eraseUuids e us).expiry_to_uuid =
      e.expiry_to_uuid.filter (fun q => ¬ q.2 ∈ us) := by
  induction us generalizing e with
  | nil => simp [eraseUuids]
  | cons u rest ih =>
      show (eraseUuids (eraseUuid e u) rest).expiry_to_uuid = _
      rw [ih]
      show (e.expiry_to_uuid.filter (fun q => ¬ q.2 = u)).filter _ = _
      rw [List.filter_filter]
      apply List.filter_congr
      intro x _
      simp only [List.mem_cons, ← Bool.decide_and, decide_eq_decide]
      tauto

lemma eraseUuids_last_tick (e : Engine) (us : List Uuid) :
    (eraseUuids e us).last_tick = e.last_tick := by
  induction us generalizing e with
  | nil => rfl
  | cons u rest ih => exact ih (eraseUuid e u)

lemma flush_spec (e : Engine) (now : Nat) (hwf : WF e) :
    e.flush now = .ok (collectExpired now e.expiry_to_uuid,
      eraseUuids e (collectExpired now e.expiry_to_uuid)) ∧
    WF (eraseUuids e (collectExpired now e.expiry_to_uuid)) := by
  obtain ⟨h1, h2⟩ := removeAll_spec e (collectExpired now e.expiry_to_uuid) hwf
  refine ⟨?_, h2⟩
  rw [Engine.flush, h1, bindE_ok]

lemma mem_collectExpired (now : Nat) (l : List (Nat × Uuid))
    (hs : List.Chain' (fun a b : Nat × Uuid => a.1 < b.1) l) (u : Uuid) :
    u ∈ collectExpired now l ↔ ∃ t, (t, u) ∈ l ∧ t ≤ now := by
  induction l with
  | nil => simp [collectExpired]
  | cons q rest ih =>
      obtain ⟨t0, v⟩ := q
      rw [collectExpired]
      split
      · rename_i hle
        rw [mem_setInsert, ih hs.tail]
        constructor
        · rintro (rfl | ⟨t, ht, htle⟩)
          · exact ⟨t0, List.mem_cons_self _ _, hle⟩
          · exact ⟨t, List.mem_cons_of_mem _ ht, htle⟩
        · rintro ⟨t, ht, htle⟩
          rcases List.mem_cons.mp ht with h1 | h1
          · left
            injection h1 with _ h2
          · right
            exact ⟨t, h1, htle⟩
      · rename_i hgt
        simp only [List.not_mem_nil, false_iff, not_exists]
        rintro t ⟨ht, htle⟩
        rcases List.mem_cons.mp ht with h1 | h1
        · injection h1 with h2 _
          omega
        · have hp := chain'_exp_pairwise hs
          have hlt := (List.pairwise_cons.mp hp).1 (t, u) h1
          simp only at hlt
          omega

lemma bookOf_set_last_tick (e : Engine) (t : Nat) (s : Side) :
    bookOf { e with last_tick := t } s = bookOf e s := by
  cases s <;> rfl

lemma WF_set_last_tick (e : Engine) (hwf : WF e) (t : Nat) : WF { e with last_tick := t } := by
  refine ⟨hwf.buy_sorted, hwf.sell_sorted, hwf.exp_sorted, hwf.idx_nodup,
    hwf.buy_ok, hwf.sell_ok, ?_, hwf.exp_to_book⟩
  intro p hp
  rw [bookOf_set_last_tick]
  exact hwf.idx_to_book p hp

/-- On a well-formed state, flush collects exactly the ids whose expiry
key in the expiry index is ≤ now (the in-order scan stopping at the first
key > now loses nothing because the index is sorted); every collected id
is removed from book sides, id index and expiry index; and afterwards no
resting order has expiry ≤ now. Well-formedness is NOT preserved by the
program (the expiry-index overwrite of C6), so this does not hold at every
reachable state: see the C5 code-bug theorem below. -/
theorem flush_wf_due (e : Engine) (now : Nat) (e' : Engine) (r : MatchResult)
    (hwf : WF e) (hok : e.call ⟨now, .Flush⟩ = .ok (e', r)) :
    r.fills = [] ∧
    (∀ u, u ∈ r.closed ↔ ∃ t, (t, u) ∈ e.expiry_to_uuid ∧ t ≤ now) ∧
    (∀ u ∈ r.closed,
      (∀ kv ∈ e'.buy ++ e'.sell, kv.2.uuid ≠ u) ∧
      alookup u e'.uuid_to_side_price_time = none ∧
      (∀ q ∈ e'.expiry_to_uuid, q.2 ≠ u)) ∧
    (∀ kv ∈ e'.buy ++ e'.sell, now < kv.2.expiry) := by
  rw [Engine.call] at hok
  split at hok
  · exact absurd hok (by simp)
  · dsimp only at hok
    have hwf0 : WF { e with last_tick := now } := WF_set_last_tick e hwf now
    obtain ⟨hf, hwf1⟩ := flush_spec { e with last_tick := now } now hwf0
    rw [hf, bindE_ok] at hok
    simp only [Except.ok.injEq, Prod.mk.injEq] at hok
    obtain ⟨he', hr⟩ := hok
    have hexp0 : ({ e with last_tick := now } : Engine).expiry_to_uuid =
      e.expiry_to_uuid := rfl
    rw [hexp0] at he'
    refine ⟨?_, ?_, ?_, ?_⟩
    · rw [← hr]
    · intro u
      rw [← hr]
      show u ∈ collectExpired now e.expiry_to_uuid ↔ _
      exact mem_collectExpired now e.expiry_to_uuid hwf.exp_sorted u
    · intro u hu
      rw [← hr] at hu
      have hu' : u ∈ collectExpired now e.expiry_to_uuid := hu
      refine ⟨?_, ?_, ?_⟩
      · intro kv hkv
        rcases List.mem_append.mp hkv with h1 | h1
        · rw [← he', eraseUuids_buy] at h1
          have := (List.mem_filter.mp h1).2
          simp only [decide_eq_true_eq] at this
          intro hc
          exact this (hc ▸ hu')
        · rw [← he', eraseUuids_sell] at h1
          have := (List.mem_filter.mp h1).2
          simp only [decide_eq_true_eq] at this
          intro hc
          exact this (hc ▸ hu')
      · rw [← he', eraseUuids_idx, alookup_eq_none]
        intro hm
        obtain ⟨p, hp, hpu⟩ := List.mem_map.mp hm
        have := (List.mem_filter.mp hp).2
        simp only [decide_eq_true_eq] at this
        exact this (hpu ▸ hu')
      · intro q hq
        rw [← he', eraseUuids_exp] at hq
        have := (List.mem_filter.mp hq).2
        simp only [decide_eq_true_eq] at this
        intro hc
        exact this (hc ▸ hu')
    · intro kv hkv
      by_contra hle
      have hmem : kv.2.uuid ∈ collectExpired now e.expiry_to_uuid := by
        rcases List.mem_append.mp hkv with h1 | h1
        · rw [← he', eraseUuids_buy] at h1
          have h2 := (List.mem_filter.mp h1).1
          have h3 := (hwf.buy_ok kv h2).2.2.2
          rw [mem_collectExpired now e.expiry_to_uuid hwf.exp_sorted]
          exact ⟨kv.2.expiry, alookup_mem _ _ _ h3, Nat.le_of_not_lt hle⟩
        · rw [← he', eraseUuids_sell] at h1
          have h2 := (List.mem_filter.mp h1).1
          have h3 := (hwf.sell_ok kv h2).2.2.2
          rw [mem_collectExpired now e.expiry_to_uuid hwf.exp_sorted]
          exact ⟨kv.2.expiry, alookup_mem _ _ _ h3, Nat.le_of_not_lt hle⟩
      rcases List.mem_append.mp hkv with h1 | h1
      · rw [← he', eraseUuids_buy] at h1
        have := (List.mem_filter.mp h1).2
        simp only [decide_eq_true_eq] at this
        exact this hmem
      · rw [← he', eraseUuids_sell] at h1
        have := (List.mem_filter.mp h1).2
        simp only [decide_eq_true_eq] at this
        exact this hmem

/-- C5 (code-bug evidence): the flush property fails on a reachable state.
After placing two GTD sells whose expiries collide at tick 11 (the expiry
index silently overwrites, keeping only id 2), a Flush at time 12 succeeds
but removes only id 2: order 1 is left resting with expiry 11 ≤ 12 while
the expiry index is empty — "after any Flush at now, no resting order has
expiry ≤ now" is violated on a valid command stream. -/
theorem claim5_flush_misses_expired :
    (runList Engine.new
      [{ now := 1, command := .Place (.LimitOrder 1 .Sell 1 (.GTD 10) 100) },
       { now := 2, command := .Place (.LimitOrder 2 .Sell 1 (.GTD 9) 100) },
       { now := 12, command := .Flush }]).map
      (fun e => (e.sell.map (fun kv => (kv.2.uuid, kv.2.expiry)), e.expiry_to_uuid)) =
      .ok ([(1, 11)], []) := by
  decide

lemma walkBook_keys (taker : Order) (book : List (PriceTime × Order)) :
    (walkBook taker book).map Prod.fst = book.map Prod.fst := by
  induction book generalizing taker with
  | nil => rfl
  | cons kv rest ih =>
      obtain ⟨k, maker⟩ := kv
      cases h : crossed taker maker <;> simp [walkBook, h, ih]

lemma mem_walkBook (taker : Order) (book : List (PriceTime × Order))
    (kv' : PriceTime × Order) (h : kv' ∈ walkBook taker book) :
    ∃ kv ∈ book, kv'.1 = kv.1 ∧
      kv'.2 = { kv.2 with remaining_amount := kv'.2.remaining_amount } := by
  induction book generalizing taker with
  | nil => simp [walkBook] at h
  | cons hd rest ih =>
      obtain ⟨k, maker⟩ := hd
      cases hc : crossed taker maker
      · rw [walkBook, hc] at h
        simp only [Bool.false_eq_true, if_false] at h
        exact ⟨kv', h, rfl, rfl⟩
      · rw [walkBook, hc] at h
        simp only [if_pos] at h
        rcases List.mem_cons.mp h with h1 | h1
        · refine ⟨(k, maker), List.mem_cons_self _ _, ?_, ?_⟩
          · rw [h1]
          · rw [h1]
            rfl
        · obtain ⟨kv, hkv, h2, h3⟩ := ih _ h1
          exact ⟨kv, List.mem_cons_of_mem _ hkv, h2, h3⟩

lemma walkBook_mem (taker : Order) (book : List (PriceTime × Order))
    (kv : PriceTime × Order) (h : kv ∈ book) :
    ∃ kv' ∈ walkBook taker book, kv'.1 = kv.1 ∧
      kv'.2 = { kv.2 with remaining_amount := kv'.2.remaining_amount } := by
  induction book generalizing taker with
  | nil => simp at h
  | cons hd rest ih =>
      obtain ⟨k, maker⟩ := hd
      cases hc : crossed taker maker
      · rw [walkBook, hc]
        simp only [Bool.false_eq_true, if_false]
        exact ⟨kv, h, rfl, rfl⟩
      · rw [walkBook, hc]
        simp only [if_pos]
        rcases List.mem_cons.mp h with h1 | h1
        · refine ⟨(k, decM taker maker), List.mem_cons_self _ _, ?_, ?_⟩
          · rw [h1]
          · rw [h1]
            rfl
        · obtain ⟨kv', hkv', h2, h3⟩ := ih _ h1
          exact ⟨kv', List.mem_cons_of_mem _ hkv', h2, h3⟩

lemma expiry_congr (o1 o2 : Order) (ht : o1.tif = o2.tif) (hc : o1.created = o2.created) :
    o1.expiry = o2.expiry := by
  rw [Order.expiry, Order.expiry, ht, hc]

lemma walkBook_sorted (taker : Order) (book : List (PriceTime × Order))
    (hs : List.Chain' (fun a b => PriceTime.ltb a.1 b.1 = true) book) :
    List.Chain' (fun a b => PriceTime.ltb a.1 b.1 = true) (walkBook taker book) := by
  have h1 : List.Chain' (fun a b => PriceTime.ltb a b = true) (book.map Prod.fst) :=
    (List.chain'_map _).mpr hs
  rw [← walkBook_keys taker book] at h1
  exact (List.chain'_map _).mp h1

lemma walkBook_sideOK (taker : Order) (book : List (PriceTime × Order)) (s : Side)
    (idx : List (Uuid × SidePriceTime)) (exp : List (Nat × Uuid))
    (hok : bookSideOK s book idx exp) :
    bookSideOK s (walkBook taker book) idx exp := by
  intro kv' hkv'
  obtain ⟨kv, hkv, h1, h2⟩ := mem_walkBook taker book kv' hkv'
  have hold := hok kv hkv
  have hu : kv'.2.uuid = kv.2.uuid := by rw [h2]
  have hsd : kv'.2.side = kv.2.side := by rw [h2]
  have hp : kv'.2.price = kv.2.price := by rw [h2]
  have hc : kv'.2.created = kv.2.created := by rw [h2]
  have htf : kv'.2.tif = kv.2.tif := by rw [h2]
  refine ⟨hsd.trans hold.1, ?_, ?_, ?_⟩
  · rw [h1, hold.2.1]
    exact (orderKey_congr _ _ hsd hp hc).symm
  · rw [hu, hp, hc]
    exact hold.2.2.1
  · rw [hu, expiry_congr kv'.2 kv.2 htf hc]
    exact hold.2.2.2

lemma WF_match (e : Engine) (hwf : WF e) (taker : Order) : WF (e._match taker).2.1 := by
  rw [match_engine_eq]
  cases hs : other_side taker.side with
  | Buy =>
      have hb : bookOf e .Buy = e.buy := rfl
      refine ⟨?_, hwf.sell_sorted, hwf.exp_sorted, hwf.idx_nodup, ?_, hwf.sell_ok, ?_, ?_⟩
      · exact walkBook_sorted taker e.buy hwf.buy_sorted
      · exact walkBook_sideOK taker e.buy .Buy _ _ hwf.buy_ok
      · intro p hp
        obtain ⟨kv, hkv, hku, hkp, hkc⟩ := hwf.idx_to_book p hp
        cases hps : p.2.side with
        | Buy =>
            rw [hps, hb] at hkv
            obtain ⟨kv', hkv', h1, h2⟩ := walkBook_mem taker e.buy kv hkv
            refine ⟨kv', ?_, ?_, ?_, ?_⟩
            · rw [bookOf_setBook]
              exact hkv'
            · rw [show kv'.2.uuid = kv.2.uuid from by rw [h2]]
              exact hku
            · rw [show kv'.2.price = kv.2.price from by rw [h2]]
              exact hkp
            · rw [show kv'.2.created = kv.2.created from by rw [h2]]
              exact hkc
        | Sell =>
            rw [hps] at hkv
            rw [bookOf_setBook_other e .Buy .Sell _ (by simp)]
            exact ⟨kv, hkv, hku, hkp, hkc⟩
      · intro q hq
        rcases hwf.exp_to_book q hq with ⟨kv, hkv, hku, hke⟩ | ⟨kv, hkv, hku, hke⟩
        · obtain ⟨kv', hkv', h1, h2⟩ := walkBook_mem taker e.buy kv hkv
          refine Or.inl ⟨kv', hkv', ?_, ?_⟩
          · rw [show kv'.2.uuid = kv.2.uuid from by rw [h2]]
            exact hku
          · rw [expiry_congr kv'.2 kv.2 (by rw [h2]) (by rw [h2])]
            exact hke
        · exact Or.inr ⟨kv, hkv, hku, hke⟩
  | Sell =>
      have hb : bookOf e .Sell = e.sell := rfl
      refine ⟨hwf.buy_sorted, ?_, hwf.exp_sorted, hwf.idx_nodup, hwf.buy_ok, ?_, ?_, ?_⟩
      · exact walkBook_sorted taker e.sell hwf.sell_sorted
      · exact walkBook_sideOK taker e.sell .Sell _ _ hwf.sell_ok
      · intro p hp
        obtain ⟨kv, hkv, hku, hkp, hkc⟩ := hwf.idx_to_book p hp
        cases hps : p.2.side with
        | Sell =>
            rw [hps, hb] at hkv
            obtain ⟨kv', hkv', h1, h2⟩ := walkBook_mem taker e.sell kv hkv
            refine ⟨kv', ?_, ?_, ?_, ?_⟩
            · rw [bookOf_setBook]
              exact hkv'
            · rw [show kv'.2.uuid = kv.2.uuid from by rw [h2]]
              exact hku
            · rw [show kv'.2.price = kv.2.price from by rw [h2]]
              exact hkp
            · rw [show kv'.2.created = kv.2.created from by rw [h2]]
              exact hkc
        | Buy =>
            rw [hps] at hkv
            rw [bookOf_setBook_other e .Sell .Buy _ (by simp)]
            exact ⟨kv, hkv, hku, hkp, hkc⟩
      · intro q hq
        rcases hwf.exp_to_book q hq with ⟨kv, hkv, hku, hke⟩ | ⟨kv, hkv, hku, hke⟩
        · exact Or.inl ⟨kv, hkv, hku, hke⟩
        · obtain ⟨kv', hkv', h1, h2⟩ := walkBook_mem taker e.sell kv hkv
          refine Or.inr ⟨kv', hkv', ?_, ?_⟩
          · rw [show kv'.2.uuid = kv.2.uuid from by rw [h2]]
            exact hku
          · rw [expiry_congr kv'.2 kv.2 (by rw [h2]) (by rw [h2])]
            exact hke

lemma walkTaker_uuid (taker : Order) (book : List (PriceTime × Order)) :
    (walkTaker taker book).uuid = taker.uuid := by
  rw [walkTaker_eq]

lemma walkTaker_tif (taker : Order) (book : List (PriceTime × Order)) :
    (walkTaker taker book).tif = taker.tif := by
  rw [walkTaker_eq]

lemma match_closed_IOC (e : Engine) (taker : Order) (h : taker.tif = .IOC) :
    (e._match taker).2.2.closed =
      setInsert taker.uuid (walkClosed taker (bookOf e (other_side taker.side))) := by
  show (match (walkTaker taker (bookOf e (other_side taker.side))).tif with
    | TimeInForce.IOC => setInsert (walkTaker taker (bookOf e (other_side taker.side))).uuid
        (walkClosed taker (bookOf e (other_side taker.side)))
    | _ => walkClosed taker (bookOf e (other_side taker.side))) = _
  rw [walkTaker_tif taker _, h, walkTaker_uuid]

lemma match_closed_cases (e : Engine) (taker : Order) (u : Uuid)
    (h : u ∈ (e._match taker).2.2.closed) :
    u = taker.uuid ∨ u ∈ walkClosed taker (bookOf e (other_side taker.side)) := by
  have hshape : (e._match taker).2.2.closed =
      (match (walkTaker taker (bookOf e (other_side taker.side))).tif with
        | TimeInForce.IOC =>
            setInsert (walkTaker taker (bookOf e (other_side taker.side))).uuid
              (walkClosed taker (bookOf e (other_side taker.side)))
        | _ => walkClosed taker (bookOf e (other_side taker.side))) := rfl
  rw [hshape] at h
  rcases htif : (walkTaker taker (bookOf e (other_side taker.side))).tif with _ | _ | lt <;>
    rw [htif] at h
  · exact Or.inr h
  · rw [mem_setInsert, walkTaker_uuid] at h
    exact h
  · exact Or.inr h

lemma call_place_spec (e : Engine) (now : Nat) (p : Place) (hwf : WF e)
    (hnow : ¬ now ≤ e.last_tick) :
    WF (placeRemoved e now p) ∧
    e.call ⟨now, .Place p⟩ =
      (if (Order.create p now).uuid ∈ (placeMatched e now p).2.2.closed then
        Except.ok (placeRemoved e now p,
          merge (placeMatched e now p).2.2 (collectExpired now e.expiry_to_uuid))
      else
        ((placeRemoved e now p).insert (placeMatched e now p).1).map
          (fun e3 => (e3, merge (placeMatched e now p).2.2
            (collectExpired now e.expiry_to_uuid)))) := by
  have hwf0 := WF_set_last_tick e hwf now
  obtain ⟨hf, hwf1⟩ := flush_spec { e with last_tick := now } now hwf0
  have hwfm : WF (placeMatched e now p).2.1 := WF_match _ hwf1 _
  obtain ⟨hra, hwf2⟩ := removeAll_spec (placeMatched e now p).2.1
    (placeMatched e now p).2.2.closed hwfm
  refine ⟨hwf2, ?_⟩
  have hf' : ({ e with last_tick := now } : Engine).flush now =
      Except.ok (collectExpired now e.expiry_to_uuid,
        eraseUuids { e with last_tick := now }
          (collectExpired now e.expiry_to_uuid)) := hf
  rw [Engine.call, if_neg hnow]
  dsimp only
  rw [hf', bindE_ok, Engine.place]
  dsimp only
  simp only [placeMatched, placeFlushed, placeRemoved] at hra ⊢
  rw [hra, bindE_ok]
  have huid : ((eraseUuids { e with last_tick := now }
      (collectExpired now e.expiry_to_uuid))._match (Order.create p now)).1.uuid =
      (Order.create p now).uuid := by
    rw [match_taker_eq, walkTaker_uuid]
  simp only [huid]
  split
  · rw [bindE_ok]
  · cases hi : (eraseUuids ((eraseUuids { e with last_tick := now }
        (collectExpired now e.expiry_to_uuid))._match (Order.create p now)).2.1
        ((eraseUuids { e with last_tick := now }
          (collectExpired now e.expiry_to_uuid))._match (Order.create p now)).2.2.closed).insert
        ((eraseUuids { e with last_tick := now }
          (collectExpired now e.expiry_to_uuid))._match (Order.create p now)).1 with
    | error err => rfl
    | ok e3 => rfl

/-- C4: after any successfully processed Place whose order has tif = IOC,
the order's id is in the returned closed set and is present in neither book
side, nor the id index, nor the expiry index; and market orders are built
as IOC limit orders with synthetic price (Decimal::MAX for buys, 0 for
sells), so they never rest either. -/
theorem claim4_ioc_never_rests (e : Engine) (now : Nat) (p : Place) (e' : Engine)
    (r : MatchResult) (hwf : WF e)
    (htif : (Order.create p now).tif = .IOC)
    (hok : e.call ⟨now, .Place p⟩ = .ok (e', r)) :
    (Order.create p now).uuid ∈ r.closed ∧
    (∀ kv ∈ e'.buy ++ e'.sell, kv.2.uuid ≠ (Order.create p now).uuid) ∧
    alookup (Order.create p now).uuid e'.uuid_to_side_price_time = none ∧
    (∀ q ∈ e'.expiry_to_uuid, q.2 ≠ (Order.create p now).uuid) ∧
    (∀ (u : Uuid) (s : Side) (a : Decimal), Order.create (.MarketOrder u s a) now =
      { uuid := u, side := s, created := now, amount := a,
        price := match s with | .Buy => DecimalMAX | .Sell => 0,
        tif := .IOC, remaining_amount := a }) := by
  have hnow : ¬ now ≤ e.last_tick := by
    intro hle
    rw [Engine.call, if_pos hle] at hok
    exact absurd hok (by simp)
  obtain ⟨hwf2, hcall⟩ := call_place_spec e now p hwf hnow
  rw [hcall] at hok
  have hmemclosed : (Order.create p now).uuid ∈ (placeMatched e now p).2.2.closed := by
    have h1 : (placeMatched e now p).2.2.closed =
        setInsert (Order.create p now).uuid
          (walkClosed (Order.create p now)
            (bookOf (placeFlushed e now) (other_side (Order.create p now).side))) :=
      match_closed_IOC (placeFlushed e now) (Order.create p now) htif
    rw [h1, mem_setInsert]
    exact Or.inl rfl
  rw [if_pos hmemclosed] at hok
  simp only [Except.ok.injEq, Prod.mk.injEq] at hok
  obtain ⟨he', hr⟩ := hok
  refine ⟨?_, ?_, ?_, ?_, fun u s a => rfl⟩
  · rw [← hr]
    show (Order.create p now).uuid ∈
      setUnion (placeMatched e now p).2.2.closed (collectExpired now e.expiry_to_uuid)
    exact (mem_setUnion _ _ _).mpr (Or.inl hmemclosed)
  · intro kv hkv
    rcases List.mem_append.mp hkv with h1 | h1
    · rw [← he'] at h1
      have h2 : (placeRemoved e now p).buy = (placeMatched e now p).2.1.buy.filter
          (fun kv => ¬ kv.2.uuid ∈ (placeMatched e now p).2.2.closed) :=
        eraseUuids_buy _ _
      rw [h2] at h1
      have := (List.mem_filter.mp h1).2
      simp only [decide_eq_true_eq] at this
      intro hc
      exact this (hc ▸ hmemclosed)
    · rw [← he'] at h1
      have h2 : (placeRemoved e now p).sell = (placeMatched e now p).2.1.sell.filter
          (fun kv => ¬ kv.2.uuid ∈ (placeMatched e now p).2.2.closed) :=
        eraseUuids_sell _ _
      rw [h2] at h1
      have := (List.mem_filter.mp h1).2
      simp only [decide_eq_true_eq] at this
      intro hc
      exact this (hc ▸ hmemclosed)
  · rw [← he']
    have h2 : (placeRemoved e now p).uuid_to_side_price_time =
        (placeMatched e now p).2.1.uuid_to_side_price_time.filter
          (fun q => ¬ q.1 ∈ (placeMatched e now p).2.2.closed) :=
      eraseUuids_idx _ _
    rw [h2, alookup_eq_none]
    intro hm
    obtain ⟨q, hq, hqu⟩ := List.mem_map.mp hm
    have := (List.mem_filter.mp hq).2
    simp only [decide_eq_true_eq] at this
    exact this (hqu ▸ hmemclosed)
  · intro q hq
    rw [← he'] at hq
    have h2 : (placeRemoved e now p).expiry_to_uuid =
        (placeMatched e now p).2.1.expiry_to_uuid.filter
          (fun q => ¬ q.2 ∈ (placeMatched e now p).2.2.closed) :=
      eraseUuids_exp _ _
    rw [h2] at hq
    have := (List.mem_filter.mp hq).2
    simp only [decide_eq_true_eq] at this
    intro hc
    exact this (hc ▸ hmemclosed)

lemma collectExpired_nil (now : Nat) (l : List (Nat × Uuid))
    (h : ∀ q ∈ l, ¬ q.1 ≤ now) : collectExpired now l = [] := by
  cases l with
  | nil => rfl
  | cons q rest =>
      obtain ⟨t, v⟩ := q
      rw [collectExpired, if_neg (h (t, v) (List.mem_cons_self _ _))]

lemma remove_unknown (e : Engine) (u : Uuid)
    (h : alookup u e.uuid_to_side_price_time = none) :
    e.remove u = .ok (false, e) := by
  rw [Engine.remove]
  dsimp only
  rw [mapRemove_fst, h, mapRemove_not_mem _ _ h]

/-- Cancelling an id that is not resting is a no-op — the Cancel command
returns exactly what a bare Flush at the same time returns (closed =
flushed, no fills) and leaves the state unchanged; and on a WELL-FORMED
state, cancelling a resting id twice (with no expiries due) yields closed
= [id] then closed = [], with identical state after both apart from the
clock. Well-formedness is not preserved by the program (the expiry-index
overwrite of C6), so the second half does not hold at every reachable
state: see the C9 code-bug theorem below. -/
theorem cancel_wf_idempotent :
    (∀ (e : Engine) (now : Nat) (u : Uuid) (fe : Engine) (fr : MatchResult),
      e.call ⟨now, .Flush⟩ = .ok (fe, fr) →
      alookup u fe.uuid_to_side_price_time = none →
      e.call ⟨now, .Cancel u⟩ = .ok (fe, fr)) ∧
    (∀ (e : Engine) (now1 now2 : Nat) (u : Uuid) (spt : SidePriceTime),
      WF e → e.last_tick < now1 → now1 < now2 →
      alookup u e.uuid_to_side_price_time = some spt →
      (∀ q ∈ e.expiry_to_uuid, now2 < q.1) →
      e.call ⟨now1, .Cancel u⟩ =
        .ok (eraseUuid { e with last_tick := now1 } u, { fills := [], closed := [u] }) ∧
      (eraseUuid { e with last_tick := now1 } u).call ⟨now2, .Cancel u⟩ =
        .ok ({ eraseUuid { e with last_tick := now1 } u with last_tick := now2 },
          { fills := [], closed := [] })) := by
  constructor
  · intro e now u fe fr hflush hnone
    have hnow : ¬ now ≤ e.last_tick := by
      intro hle
      rw [Engine.call, if_pos hle] at hflush
      exact absurd hflush (by simp)
    rw [Engine.call, if_neg hnow] at hflush
    rw [Engine.call, if_neg hnow]
    dsimp only at hflush ⊢
    cases hf : Engine.flush { e with last_tick := now } now with
    | error err => rw [hf] at hflush; exact absurd hflush (by simp)
    | ok f =>
        rw [hf, bindE_ok] at hflush
        simp only [Except.ok.injEq, Prod.mk.injEq] at hflush
        obtain ⟨hfe, hfr⟩ := hflush
        rw [bindE_ok, Engine.cancel]
        rw [hfe]
        rw [remove_unknown fe u hnone, bindE_ok]
        rw [← hfr]
        rfl
  · intro e now1 now2 u spt hwf h1 h2 hlook hexp
    have hwf0 : WF { e with last_tick := now1 } := WF_set_last_tick e hwf now1
    have hc1 : collectExpired now1 e.expiry_to_uuid = [] :=
      collectExpired_nil now1 _ (fun q hq => by have := hexp q hq; omega)
    constructor
    · rw [Engine.call, if_neg (by simpa using Nat.not_le.mpr h1)]
      dsimp only
      rw [Engine.flush]
      have hce : ({ e with last_tick := now1 } : Engine).expiry_to_uuid =
        e.expiry_to_uuid := rfl
      rw [hce, hc1]
      rw [show ({ e with last_tick := now1 } : Engine).removeAll [] =
        .ok { e with last_tick := now1 } from rfl, bindE_ok, bindE_ok, Engine.cancel]
      have hr := remove_spec { e with last_tick := now1 } u hwf0
      have hl0 : alookup u ({ e with last_tick := now1 } : Engine).uuid_to_side_price_time =
          some spt := hlook
      rw [hl0] at hr
      rw [hr, bindE_ok]
      rfl
    · rw [Engine.call, if_neg (by
        simp only [eraseUuid, not_le]
        exact h2)]
      dsimp only
      rw [Engine.flush]
      have hc2 : collectExpired now2
          ({ eraseUuid { e with last_tick := now1 } u with last_tick := now2 } :
            Engine).expiry_to_uuid = [] := by
        apply collectExpired_nil
        intro q hq
        have hq2 : q ∈ e.expiry_to_uuid := by
          have : q ∈ e.expiry_to_uuid.filter (fun q => ¬ q.2 = u) := hq
          exact (List.mem_filter.mp this).1
        have := hexp q hq2
        omega
      rw [hc2]
      rw [show ({ eraseUuid { e with last_tick := now1 } u with last_tick := now2 } :
        Engine).removeAll [] = .ok { eraseUuid { e with last_tick := now1 } u with
          last_tick := now2 } from rfl, bindE_ok, bindE_ok, Engine.cancel]
      have hnone2 : alookup u ({ eraseUuid { e with last_tick := now1 } u with
          last_tick := now2 } : Engine).uuid_to_side_price_time = none := by
        rw [alookup_eq_none]
        intro hm
        obtain ⟨q, hq, hqu⟩ := List.mem_map.mp hm
        have : q ∈ e.uuid_to_side_price_time.filter (fun p => ¬ p.1 = u) := hq
        have h3 := (List.mem_filter.mp this).2
        simp only [decide_eq_true_eq] at h3
        exact h3 hqu
      rw [remove_unknown _ u hnone2, bindE_ok]
      rfl

/-- C9 (code-bug evidence): cancel is not idempotent on a reachable state.
After two GTD sells whose expiries collide at tick 11 and a cancel of id 1
(which succeeds but consumes the single surviving expiry entry — the one
registered to id 2), id 2 is still resting and live in the id index, yet
the FIRST cancel of id 2 fails with InternalInconsistency (the source's
assert panics) instead of returning closed = [2]. -/
theorem claim9_cancel_hits_assert :
    (runList Engine.new
      [{ now := 1, command := .Place (.LimitOrder 1 .Sell 1 (.GTD 10) 100) },
       { now := 2, command := .Place (.LimitOrder 2 .Sell 1 (.GTD 9) 100) },
       { now := 3, command := .Cancel 1 }]).map
      (fun e => ((alookup 2 e.uuid_to_side_price_time).isSome,
        e.sell.map (fun kv => kv.2.uuid))) = .ok (true, [2]) ∧
    Except.bind (runList Engine.new
      [{ now := 1, command := .Place (.LimitOrder 1 .Sell 1 (.GTD 10) 100) },
       { now := 2, command := .Place (.LimitOrder 2 .Sell 1 (.GTD 9) 100) },
       { now := 3, command := .Cancel 1 }])
      (fun e => e.call { now := 4, command := .Cancel 2 }) =
      .error .InternalInconsistency := by
  constructor
  · decide
  · decide

lemma create_uuid (p : Place) (now : Nat) : (Order.create p now).uuid = p.uuid := by
  cases p <;> rfl

lemma match_idx (e : Engine) (taker : Order) :
    (e._match taker).2.1.uuid_to_side_price_time = e.uuid_to_side_price_time := by
  rw [match_engine_eq, setBook_idx]

lemma insert_duplicate (e : Engine) (o : Order) (spt : SidePriceTime)
    (h : alookup o.uuid e.uuid_to_side_price_time = some spt) :
    e.insert o = .error .DuplicateId := by
  rw [Engine.insert]
  dsimp only
  rw [hashInsert_fst, h]

/-- C8 (amended): on a well-formed state, placing an order whose id is
currently resting with expiry beyond now fails with DuplicateId exactly
when the incoming order would rest — when the match does not put its id in
the closed set; otherwise the place succeeds, the id appears in the
returned closed set, and the old resting order with that id is silently
removed from the books, the id index and the expiry index. -/
theorem claim8_duplicate_id (e : Engine) (now : Nat) (p : Place)
    (spt : SidePriceTime) (hwf : WF e) (hnow : e.last_tick < now)
    (huuid : alookup p.uuid e.uuid_to_side_price_time = some spt)
    (hexp : ∀ kv ∈ e.buy ++ e.sell, kv.2.uuid = p.uuid → now < kv.2.expiry) :
    (e.call ⟨now, .Place p⟩ = .error .DuplicateId ↔
      ¬ p.uuid ∈ (placeMatched e now p).2.2.closed) ∧
    (p.uuid ∈ (placeMatched e now p).2.2.closed →
      e.call ⟨now, .Place p⟩ =
        .ok (placeRemoved e now p,
          merge (placeMatched e now p).2.2 (collectExpired now e.expiry_to_uuid)) ∧
      p.uuid ∈ (merge (placeMatched e now p).2.2
        (collectExpired now e.expiry_to_uuid)).closed ∧
      (∀ kv ∈ (placeRemoved e now p).buy ++ (placeRemoved e now p).sell,
        kv.2.uuid ≠ p.uuid) ∧
      alookup p.uuid (placeRemoved e now p).uuid_to_side_price_time = none ∧
      (∀ q ∈ (placeRemoved e now p).expiry_to_uuid, q.2 ≠ p.uuid)) := by
  have hnow' : ¬ now ≤ e.last_tick := Nat.not_le.mpr hnow
  obtain ⟨hwf2, hcall⟩ := call_place_spec e now p hwf hnow'
  have hcu : (Order.create p now).uuid = p.uuid := create_uuid p now
  have hnotC : ¬ p.uuid ∈ collectExpired now e.expiry_to_uuid := by
    rw [mem_collectExpired now _ hwf.exp_sorted]
    rintro ⟨t, ht, htle⟩
    rcases hwf.exp_to_book (t, p.uuid) ht with ⟨kv, hkv, hku, hke⟩ | ⟨kv, hkv, hku, hke⟩
    · have := hexp kv (List.mem_append.mpr (Or.inl hkv)) hku
      omega
    · have := hexp kv (List.mem_append.mpr (Or.inr hkv)) hku
      omega
  have hOk : p.uuid ∈ (placeMatched e now p).2.2.closed →
      e.call ⟨now, .Place p⟩ =
        .ok (placeRemoved e now p,
          merge (placeMatched e now p).2.2 (collectExpired now e.expiry_to_uuid)) := by
    intro hmem
    rw [hcall, if_pos (by rw [hcu]; exact hmem)]
  have hErr : ¬ p.uuid ∈ (placeMatched e now p).2.2.closed →
      e.call ⟨now, .Place p⟩ = .error .DuplicateId := by
    intro hmem0
    have hmem : ¬ (Order.create p now).uuid ∈ (placeMatched e now p).2.2.closed := by
      rw [hcu]
      exact hmem0
    rw [hcall, if_neg hmem]
    have htuuid : (placeMatched e now p).1.uuid = p.uuid := by
      rw [show (placeMatched e now p).1 = walkTaker (Order.create p now)
        (bookOf (placeFlushed e now) (other_side (Order.create p now).side)) from rfl]
      rw [walkTaker_uuid, create_uuid]
    have hidx1 : (placeRemoved e now p).uuid_to_side_price_time =
        (placeMatched e now p).2.1.uuid_to_side_price_time.filter
          (fun q => ¬ q.1 ∈ (placeMatched e now p).2.2.closed) := eraseUuids_idx _ _
    have hidx2 : (placeMatched e now p).2.1.uuid_to_side_price_time =
        (placeFlushed e now).uuid_to_side_price_time := match_idx _ _
    have hidx3 : (placeFlushed e now).uuid_to_side_price_time =
        e.uuid_to_side_price_time.filter
          (fun q => ¬ q.1 ∈ collectExpired now e.expiry_to_uuid) := eraseUuids_idx _ _
    have hlook : alookup p.uuid (placeRemoved e now p).uuid_to_side_price_time =
        some spt := by
      rw [hidx1, hidx2, hidx3]
      rw [alookup_filter _ _ _ (fun q _ hq => by
        simp only [decide_eq_true_eq]
        rw [hq, ← create_uuid p now]
        exact hmem)]
      rw [alookup_filter _ _ _ (fun q _ hq => by
        simp only [decide_eq_true_eq]
        rw [hq]
        exact hnotC)]
      exact huuid
    rw [insert_duplicate _ _ spt (by rw [htuuid]; exact hlook)]
    rfl
  refine ⟨⟨?_, hErr⟩, ?_⟩
  · intro herr hmem
    rw [hOk hmem] at herr
    exact absurd herr (by simp)
  · intro hmem
    have hbuy : (placeRemoved e now p).buy =
        (placeMatched e now p).2.1.buy.filter
          (fun kv => ¬ kv.2.uuid ∈ (placeMatched e now p).2.2.closed) :=
      eraseUuids_buy _ _
    have hsell : (placeRemoved e now p).sell =
        (placeMatched e now p).2.1.sell.filter
          (fun kv => ¬ kv.2.uuid ∈ (placeMatched e now p).2.2.closed) :=
      eraseUuids_sell _ _
    have hidx1 : (placeRemoved e now p).uuid_to_side_price_time =
        (placeMatched e now p).2.1.uuid_to_side_price_time.filter
          (fun q => ¬ q.1 ∈ (placeMatched e now p).2.2.closed) := eraseUuids_idx _ _
    have hexp1 : (placeRemoved e now p).expiry_to_uuid =
        (placeMatched e now p).2.1.expiry_to_uuid.filter
          (fun q => ¬ q.2 ∈ (placeMatched e now p).2.2.closed) := eraseUuids_exp _ _
    refine ⟨hOk hmem, ?_, ?_, ?_, ?_⟩
    · show p.uuid ∈ setUnion (placeMatched e now p).2.2.closed _
      exact (mem_setUnion _ _ _).mpr (Or.inl hmem)
    · intro kv hkv hku
      rcases List.mem_append.mp hkv with h1 | h1
      · rw [hbuy] at h1
        have h2 := (List.mem_filter.mp h1).2
        simp only [decide_eq_true_eq] at h2
        exact h2 (by rw [hku]; exact hmem)
      · rw [hsell] at h1
        have h2 := (List.mem_filter.mp h1).2
        simp only [decide_eq_true_eq] at h2
        exact h2 (by rw [hku]; exact hmem)
    · rw [hidx1, alookup_eq_none]
      intro hm
      obtain ⟨q, hq, hqu⟩ := List.mem_map.mp hm
      have h2 := (List.mem_filter.mp hq).2
      simp only [decide_eq_true_eq] at h2
      exact h2 (by rw [hqu]; exact hmem)
    · intro q hq hqu
      rw [hexp1] at hq
      have h2 := (List.mem_filter.mp hq).2
      simp only [decide_eq_true_eq] at h2
      exact h2 (by rw [hqu]; exact hmem)

lemma crossed_remaining_ne (taker maker : Order) (h : crossed taker maker = true) :
    taker.remaining_amount ≠ 0 := by
  intro hc
  rw [crossed, if_pos hc] at h
  exact absurd h (by simp)

lemma walkFills_base_pos (taker : Order) (book : List (PriceTime × Order))
    (ht : 0 ≤ taker.remaining_amount)
    (hb : ∀ kv ∈ book, 0 < kv.2.remaining_amount) :
    ∀ f ∈ walkFills taker book, 0 < f.base_amount := by
  induction book generalizing taker with
  | nil => simp [walkFills]
  | cons hd rest ih =>
      obtain ⟨k, maker⟩ := hd
      cases hc : crossed taker maker
      · simp [walkFills, hc]
      · rw [walkFills, hc]
        simp only [if_pos, List.mem_cons]
        rintro f (rfl | hf)
        · show 0 < min taker.remaining_amount maker.remaining_amount
          apply lt_min
          · exact lt_of_le_of_ne ht (fun hc2 => crossed_remaining_ne _ _ hc hc2.symm)
          · exact hb _ (List.mem_cons_self _ _)
        · exact ih _ (decT_remaining_nonneg _ _ ht)
            (fun kv hkv => hb kv (List.mem_cons_of_mem _ hkv)) f hf

lemma mem_walkBook_pos (taker : Order) (book : List (PriceTime × Order))
    (ht : 0 ≤ taker.remaining_amount)
    (hb : ∀ kv ∈ book, 0 < kv.2.remaining_amount ∧ kv.2.remaining_amount ≤ kv.2.amount) :
    ∀ kv' ∈ walkBook taker book,
      (0 ≤ kv'.2.remaining_amount ∧ kv'.2.remaining_amount ≤ kv'.2.amount) ∧
      (kv'.2.remaining_amount = 0 → kv'.2.uuid ∈ walkClosed taker book) := by
  induction book generalizing taker with
  | nil => simp [walkBook]
  | cons hd rest ih =>
      obtain ⟨k, maker⟩ := hd
      cases hc : crossed taker maker
      · rw [walkBook, hc]
        simp only [Bool.false_eq_true, if_false]
        intro kv' hkv'
        have hp := hb kv' hkv'
        exact ⟨⟨hp.1.le, hp.2⟩, fun hz => absurd hz (ne_of_gt hp.1)⟩
      · rw [walkBook, hc, walkClosed, hc]
        simp only [if_pos, List.mem_cons]
        rintro kv' (rfl | hkv')
        · have hm := hb (k, maker) (List.mem_cons_self _ _)
          constructor
          · constructor
            · show 0 ≤ maker.remaining_amount - traded taker maker
              rw [traded]
              have := min_le_right taker.remaining_amount maker.remaining_amount
              linarith
            · show maker.remaining_amount - traded taker maker ≤ maker.amount
              have h0 : 0 ≤ traded taker maker := le_min ht hm.1.le
              have := hm.2
              show maker.remaining_amount - traded taker maker ≤ (decM taker maker).amount
              have ha : (decM taker maker).amount = maker.amount := rfl
              rw [ha]
              linarith
          · intro hz
            have hz' : maker.remaining_amount - traded taker maker = 0 := hz
            have hle : maker.remaining_amount ≤ taker.remaining_amount := by
              rw [traded] at hz'
              rcases le_total maker.remaining_amount taker.remaining_amount with h1 | h1
              · exact h1
              · rw [min_eq_left h1] at hz'
                have : taker.remaining_amount = maker.remaining_amount := by linarith
                exact le_of_eq this.symm
            refine (mem_setUnion _ _ _).mpr (Or.inl ?_)
            rw [stepClosed, mem_setUnion]
            refine Or.inr ?_
            simp [hle, decM]
        · have := ih (decT taker maker) (decT_remaining_nonneg _ _ ht)
            (fun kv hkv => hb kv (List.mem_cons_of_mem _ hkv)) kv' hkv'
          exact ⟨this.1, fun hz => (mem_setUnion _ _ _).mpr (Or.inr (this.2 hz))⟩

lemma walkClosed_subset_match (e : Engine) (taker : Order) (u : Uuid)
    (h : u ∈ walkClosed taker (bookOf e (other_side taker.side))) :
    u ∈ (e._match taker).2.2.closed := by
  have hshape : (e._match taker).2.2.closed =
      (match (walkTaker taker (bookOf e (other_side taker.side))).tif with
        | TimeInForce.IOC =>
            setInsert (walkTaker taker (bookOf e (other_side taker.side))).uuid
              (walkClosed taker (bookOf e (other_side taker.side)))
        | _ => walkClosed taker (bookOf e (other_side taker.side))) := rfl
  rw [hshape]
  rcases htif : (walkTaker taker (bookOf e (other_side taker.side))).tif with _ | _ | lt
  · exact h
  · exact (mem_setInsert _ _ _).mpr (Or.inr h)
  · exact h

lemma matched_books_pos (e1 : Engine) (taker : Order) (hpos1 : POS e1)
    (ht0 : 0 ≤ taker.remaining_amount) :
    ∀ kv ∈ (e1._match taker).2.1.buy ++ (e1._match taker).2.1.sell,
      (0 ≤ kv.2.remaining_amount ∧ kv.2.remaining_amount ≤ kv.2.amount) ∧
      (kv.2.remaining_amount = 0 → kv.2.uuid ∈ (e1._match taker).2.2.closed) := by
  intro kv hkv
  rw [match_engine_eq] at hkv
  cases hs : other_side taker.side with
  | Buy =>
      rw [hs] at hkv
      rcases List.mem_append.mp hkv with h1 | h1
      · have h2 := mem_walkBook_pos taker (bookOf e1 Side.Buy) ht0
          (fun q hq => hpos1 q (List.mem_append.mpr (Or.inl hq))) kv h1
        refine ⟨h2.1, fun hz => ?_⟩
        apply walkClosed_subset_match e1 taker
        rw [hs]
        exact h2.2 hz
      · have hp := hpos1 kv (List.mem_append.mpr (Or.inr h1))
        exact ⟨⟨hp.1.le, hp.2⟩, fun hz => absurd hz (ne_of_gt hp.1)⟩
  | Sell =>
      rw [hs] at hkv
      rcases List.mem_append.mp hkv with h1 | h1
      · have hp := hpos1 kv (List.mem_append.mpr (Or.inl h1))
        exact ⟨⟨hp.1.le, hp.2⟩, fun hz => absurd hz (ne_of_gt hp.1)⟩
      · have h2 := mem_walkBook_pos taker (bookOf e1 Side.Sell) ht0
          (fun q hq => hpos1 q (List.mem_append.mpr (Or.inr hq))) kv h1
        refine ⟨h2.1, fun hz => ?_⟩
        apply walkClosed_subset_match e1 taker
        rw [hs]
        exact h2.2 hz

lemma insert_mem (e : Engine) (o : Order) (e3 : Engine) (h : e.insert o = .ok e3) :
    ∀ kv ∈ e3.buy ++ e3.sell, kv.2 = o ∨ kv ∈ e.buy ++ e.sell := by
  rw [Engine.insert] at h
  dsimp only at h
  split at h
  · exact absurd h (by simp)
  · simp only [Except.ok.injEq] at h
    intro kv hkv
    rw [← h] at hkv
    cases hos : o.side with
    | Buy =>
        rw [hos] at hkv
        rcases List.mem_append.mp hkv with h1 | h1
        · rcases mem_btreeInsert _ _ _ _ _ h1 with h2 | h2
          · exact Or.inl (by rw [h2])
          · exact Or.inr (List.mem_append.mpr (Or.inl h2))
        · exact Or.inr (List.mem_append.mpr (Or.inr h1))
    | Sell =>
        rw [hos] at hkv
        rcases List.mem_append.mp hkv with h1 | h1
        · exact Or.inr (List.mem_append.mpr (Or.inl h1))
        · rcases mem_btreeInsert _ _ _ _ _ h1 with h2 | h2
          · exact Or.inl (by rw [h2])
          · exact Or.inr (List.mem_append.mpr (Or.inr h2))

lemma create_remaining (p : Place) (now : Nat) :
    (Order.create p now).remaining_amount = p.amount := by
  cases p <;> rfl

lemma create_amount (p : Place) (now : Nat) :
    (Order.create p now).amount = p.amount := by
  cases p <;> rfl

lemma mapE_ok {β γ : Type} (f : β → γ) (a : β) :
    Except.map f (Except.ok a : Except EngineError β) = Except.ok (f a) := rfl

lemma mapE_error {β γ : Type} (f : β → γ) (err : EngineError) :
    Except.map f (Except.error err : Except EngineError β) = Except.error err := rfl

/-- C10: if every placed order has positive amount then every resting order
keeps 0 < remaining ≤ amount across any successful Place (an order filled
to zero is closed and removed, and a fully-filled incoming order is never
inserted), and every emitted fill has positive base amount. -/
theorem claim10_positive_remaining (e : Engine) (now : Nat) (p : Place) (e' : Engine)
    (r : MatchResult) (hwf : WF e) (hpos : POS e) (hamt : 0 < p.amount)
    (hok : e.call ⟨now, .Place p⟩ = .ok (e', r)) :
    POS e' ∧ (∀ f ∈ r.fills, 0 < f.base_amount) := by
  have hnow : ¬ now ≤ e.last_tick := by
    intro hle
    rw [Engine.call, if_pos hle] at hok
    exact absurd hok (by simp)
  obtain ⟨hwf2, hcall⟩ := call_place_spec e now p hwf hnow
  rw [hcall] at hok
  have hpos1 : POS (placeFlushed e now) := by
    intro kv hkv
    rcases List.mem_append.mp hkv with h1 | h1
    · have hb := eraseUuids_buy ({ e with last_tick := now }) (collectExpired now e.expiry_to_uuid)
      rw [show (placeFlushed e now).buy = _ from hb] at h1
      exact hpos kv (List.mem_append.mpr (Or.inl (List.mem_filter.mp h1).1))
    · have hb := eraseUuids_sell ({ e with last_tick := now }) (collectExpired now e.expiry_to_uuid)
      rw [show (placeFlushed e now).sell = _ from hb] at h1
      exact hpos kv (List.mem_append.mpr (Or.inr (List.mem_filter.mp h1).1))
  have ht0 : (0 : ℚ) ≤ (Order.create p now).remaining_amount := by
    rw [create_remaining]
    exact hamt.le
  have hbookpos : ∀ kv ∈ bookOf (placeFlushed e now) (other_side (Order.create p now).side),
      0 < kv.2.remaining_amount := by
    intro kv hkv
    have hm : kv ∈ (placeFlushed e now).buy ++ (placeFlushed e now).sell := by
      cases hsd : other_side (Order.create p now).side
      · rw [hsd] at hkv
        exact List.mem_append.mpr (Or.inl hkv)
      · rw [hsd] at hkv
        exact List.mem_append.mpr (Or.inr hkv)
    exact (hpos1 kv hm).1
  have hfillpos : ∀ f ∈ (placeMatched e now p).2.2.fills, 0 < f.base_amount := by
    have hfe : (placeMatched e now p).2.2.fills =
        walkFills (Order.create p now)
          (bookOf (placeFlushed e now) (other_side (Order.create p now).side)) := rfl
    rw [hfe]
    exact walkFills_base_pos _ _ ht0 hbookpos
  have hposR : POS (placeRemoved e now p) := by
    intro kv hkv
    rcases List.mem_append.mp hkv with h1 | h1
    · have hb := eraseUuids_buy (placeMatched e now p).2.1 (placeMatched e now p).2.2.closed
      rw [show (placeRemoved e now p).buy = _ from hb] at h1
      have hm := List.mem_filter.mp h1
      have hnotc : ¬ kv.2.uuid ∈ (placeMatched e now p).2.2.closed :=
        of_decide_eq_true hm.2
      have h3 := matched_books_pos (placeFlushed e now) (Order.create p now) hpos1 ht0 kv
        (List.mem_append.mpr (Or.inl hm.1))
      refine ⟨?_, h3.1.2⟩
      rcases lt_or_eq_of_le h3.1.1 with h4 | h4
      · exact h4
      · exact absurd (h3.2 h4.symm) hnotc
    · have hb := eraseUuids_sell (placeMatched e now p).2.1 (placeMatched e now p).2.2.closed
      rw [show (placeRemoved e now p).sell = _ from hb] at h1
      have hm := List.mem_filter.mp h1
      have hnotc : ¬ kv.2.uuid ∈ (placeMatched e now p).2.2.closed :=
        of_decide_eq_true hm.2
      have h3 := matched_books_pos (placeFlushed e now) (Order.create p now) hpos1 ht0 kv
        (List.mem_append.mpr (Or.inr hm.1))
      refine ⟨?_, h3.1.2⟩
      rcases lt_or_eq_of_le h3.1.1 with h4 | h4
      · exact h4
      · exact absurd (h3.2 h4.symm) hnotc
  split at hok
  · simp only [Except.ok.injEq, Prod.mk.injEq] at hok
    obtain ⟨he3, hr⟩ := hok
    constructor
    · rw [← he3]
      exact hposR
    · intro f hf
      rw [← hr] at hf
      exact hfillpos f hf
  · rename_i hnm
    cases hi : (placeRemoved e now p).insert (placeMatched e now p).1 with
    | error err => rw [hi, mapE_error] at hok; exact absurd hok (by simp)
    | ok e3 =>
        rw [hi, mapE_ok] at hok
        simp only [Except.ok.injEq, Prod.mk.injEq] at hok
        obtain ⟨he3, hr⟩ := hok
        constructor
        · rw [← he3]
          intro kv hkv
          rcases insert_mem _ _ _ hi kv hkv with h1 | h1
          · rw [h1]
            have hb1 : (placeMatched e now p).1 = walkTaker (Order.create p now)
                (bookOf (placeFlushed e now) (other_side (Order.create p now).side)) := rfl
            constructor
            · rcases lt_or_eq_of_le (show (0 : ℚ) ≤
                  (placeMatched e now p).1.remaining_amount from by
                  rw [hb1]
                  exact walkTaker_remaining_nonneg _ _ ht0) with h4 | h4
              · exact h4
              · exfalso
                apply hnm
                have hz : (walkTaker (Order.create p now)
                    (bookOf (placeFlushed e now)
                      (other_side (Order.create p now).side))).remaining_amount = 0 := by
                  rw [← hb1]
                  exact h4.symm
                have h5 := taker_filled_closed (Order.create p now) _
                  (by rw [create_remaining]; exact hamt) hz
                exact walkClosed_subset_match _ _ _ h5
            · have hsumnn : (0 : ℚ) ≤ ((walkFills (Order.create p now)
                  (bookOf (placeFlushed e now)
                    (other_side (Order.create p now).side))).map Fill.base_amount).sum := by
                apply List.sum_nonneg
                intro x hx
                obtain ⟨f, hf, rfl⟩ := List.mem_map.mp hx
                exact walkFills_base_nonneg _ _ ht0 (fun kv hkv => (hbookpos kv hkv).le)
                  f hf
              rw [hb1, walkTaker_eq]
              show (Order.create p now).remaining_amount - _ ≤ (Order.create p now).amount
              rw [create_remaining, create_amount]
              linarith
          · exact hposR kv h1
        · intro f hf
          rw [← hr] at hf
          exact hfillpos f hf

theorem claim1_price_time_priority_witness :
    ∃ n ≤ (bookOf sampleEngine (other_side sampleBuyTaker.side)).length,
      ((sampleEngine._match sampleBuyTaker).2.2.fills).map Fill.maker_uuid =
        ((bookOf sampleEngine (other_side sampleBuyTaker.side)).take n).map
          (fun kv => kv.2.uuid) ∧
      List.Chain' (fun a b => PriceTime.ltb a b = true)
        (((bookOf sampleEngine (other_side sampleBuyTaker.side)).take n).map
          (fun kv => orderKey kv.2)) ∧
      (bookOf (sampleEngine._match sampleBuyTaker).2.1
          (other_side sampleBuyTaker.side)).drop n =
        (bookOf sampleEngine (other_side sampleBuyTaker.side)).drop n ∧
      ∀ h : n < (bookOf sampleEngine (other_side sampleBuyTaker.side)).length,
        crossed (sampleEngine._match sampleBuyTaker).1
          ((bookOf sampleEngine (other_side sampleBuyTaker.side)).get ⟨n, h⟩).2 = false :=
  claim1_price_time_priority sampleEngine sampleBuyTaker (by decide) (by decide)

theorem claim2_maker_price_fills_witness :
    ((sampleEngine._match sampleBuyTaker).2.2.fills)[0]? = some
      { base_amount := min (takerAt sampleBuyTaker
          (bookOf sampleEngine (other_side sampleBuyTaker.side)) 0).remaining_amount
          sampleSell.remaining_amount,
        price := sampleSell.price,
        maker_uuid := sampleSell.uuid,
        taker_uuid := sampleBuyTaker.uuid } :=
  claim2_maker_price_fills sampleEngine sampleBuyTaker 0
    ({ price := 100, created := 1 }, sampleSell) (by decide) (by decide)

theorem claim3_conservation_witness :
    ((((sampleEngine._match sampleBuyTaker).2.2.fills).map Fill.base_amount).sum ≤
        sampleBuyTaker.amount ∧
     (((sampleEngine._match sampleBuyTaker).2.2.fills).map Fill.base_amount).sum ≤
       (((bookOf sampleEngine (other_side sampleBuyTaker.side)).filter
          (fun kv => priceCrosses sampleBuyTaker kv.2)).map
         (fun kv => kv.2.remaining_amount)).sum) ∧
    sampleBuyTaker.remaining_amount -
        (sampleEngine._match sampleBuyTaker).1.remaining_amount =
      (((sampleEngine._match sampleBuyTaker).2.2.fills).map Fill.base_amount).sum ∧
    (∀ i f, ((sampleEngine._match sampleBuyTaker).2.2.fills)[i]? = some f →
      (takerAt sampleBuyTaker
          (bookOf sampleEngine (other_side sampleBuyTaker.side)) (i + 1)).remaining_amount =
        (takerAt sampleBuyTaker
          (bookOf sampleEngine (other_side sampleBuyTaker.side)) i).remaining_amount -
          f.base_amount) ∧
    (∀ i kv, (bookOf sampleEngine (other_side sampleBuyTaker.side))[i]? = some kv →
      i < ((sampleEngine._match sampleBuyTaker).2.2.fills).length →
      ∃ f, ((sampleEngine._match sampleBuyTaker).2.2.fills)[i]? = some f ∧
        (bookOf (sampleEngine._match sampleBuyTaker).2.1
            (other_side sampleBuyTaker.side))[i]? =
          some (kv.1, { kv.2 with remaining_amount :=
            kv.2.remaining_amount - f.base_amount })) :=
  claim3_conservation sampleEngine sampleBuyTaker (by decide) (by decide) (by decide)

theorem claim4_ioc_never_rests_witness :
    (Order.create (.MarketOrder 2 .Sell 1) 2).uuid ∈
      ({ fills := [], closed := [2] } : MatchResult).closed ∧
    (∀ kv ∈ ({ sampleEngine with last_tick := 2 } : Engine).buy ++
        ({ sampleEngine with last_tick := 2 } : Engine).sell,
      kv.2.uuid ≠ (Order.create (.MarketOrder 2 .Sell 1) 2).uuid) ∧
    alookup (Order.create (.MarketOrder 2 .Sell 1) 2).uuid
      ({ sampleEngine with last_tick := 2 } : Engine).uuid_to_side_price_time = none ∧
    (∀ q ∈ ({ sampleEngine with last_tick := 2 } : Engine).expiry_to_uuid,
      q.2 ≠ (Order.create (.MarketOrder 2 .Sell 1) 2).uuid) ∧
    (∀ (u : Uuid) (s : Side) (a : Decimal), Order.create (.MarketOrder u s a) 2 =
      { uuid := u, side := s, created := 2, amount := a,
        price := match s with | .Buy => DecimalMAX | .Sell => 0,
        tif := .IOC, remaining_amount := a }) :=
  claim4_ioc_never_rests sampleEngine 2 (.MarketOrder 2 .Sell 1)
    { sampleEngine with last_tick := 2 } { fills := [], closed := [2] }
    (by decide) (by decide) (by decide)

theorem claim7_clock_monotonicity_witness :
    (Engine.new.call ⟨1, .Flush⟩ = .error .NonMonotonicTime ↔
      (1 : Nat) ≤ Engine.new.last_tick) ∧
    ({ Engine.new with last_tick := 1 } : Engine).last_tick = 1 :=
  ⟨(claim7_clock_monotonicity Engine.new ⟨1, .Flush⟩).1,
   (claim7_clock_monotonicity Engine.new ⟨1, .Flush⟩).2
     { Engine.new with last_tick := 1 } { fills := [], closed := [] } (by decide)⟩

theorem claim8_duplicate_id_witness :
    ((sampleEngine.call ⟨2, .Place (.LimitOrder 1 .Sell 1 .GTC 100)⟩ =
        .error .DuplicateId ↔
      ¬ (1 : Uuid) ∈
        (placeMatched sampleEngine 2 (.LimitOrder 1 .Sell 1 .GTC 100)).2.2.closed) ∧
    ((1 : Uuid) ∈ (placeMatched sampleEngine 2 (.LimitOrder 1 .Sell 1 .GTC 100)).2.2.closed →
      sampleEngine.call ⟨2, .Place (.LimitOrder 1 .Sell 1 .GTC 100)⟩ =
        .ok (placeRemoved sampleEngine 2 (.LimitOrder 1 .Sell 1 .GTC 100),
          merge (placeMatched sampleEngine 2 (.LimitOrder 1 .Sell 1 .GTC 100)).2.2
            (collectExpired 2 sampleEngine.expiry_to_uuid)) ∧
      (1 : Uuid) ∈ (merge (placeMatched sampleEngine 2 (.LimitOrder 1 .Sell 1 .GTC 100)).2.2
        (collectExpired 2 sampleEngine.expiry_to_uuid)).closed ∧
      (∀ kv ∈ (placeRemoved sampleEngine 2 (.LimitOrder 1 .Sell 1 .GTC 100)).buy ++
          (placeRemoved sampleEngine 2 (.LimitOrder 1 .Sell 1 .GTC 100)).sell,
        kv.2.uuid ≠ (1 : Uuid)) ∧
      alookup (1 : Uuid)
        (placeRemoved sampleEngine 2 (.LimitOrder 1 .Sell 1 .GTC 100)).uuid_to_side_price_time =
        none ∧
      (∀ q ∈ (placeRemoved sampleEngine 2 (.LimitOrder 1 .Sell 1 .GTC 100)).expiry_to_uuid,
        q.2 ≠ (1 : Uuid)))) :=
  claim8_duplicate_id sampleEngine 2 (.LimitOrder 1 .Sell 1 .GTC 100)
    { side := .Sell, price := 100, created := 1 } (by decide) (by decide)
    (by decide) (by decide)
theorem claim10_positive_remaining_witness :
    POS { sampleEngine with
      last_tick := 2
      buy := [({ price := -50, created := 2 }, Order.create (.LimitOrder 2 .Buy 1 .GTC 50) 2)]
      uuid_to_side_price_time := [(1, { side := .Sell, price := 100, created := 1 }), (2, { side := .Buy, price := 50, created := 2 })]
      expiry_to_uuid := [(1 + MAX_LIFETIME, 1), (2 + MAX_LIFETIME, 2)] } ∧
    (∀ f ∈ ({ fills := [], closed := [] } : MatchResult).fills, 0 < f.base_amount) :=
  claim10_positive_remaining sampleEngine 2 (.LimitOrder 2 .Buy 1 .GTC 50)
    { sampleEngine with
      last_tick := 2
      buy := [({ price := -50, created := 2 }, Order.create (.LimitOrder 2 .Buy 1 .GTC 50) 2)]
      uuid_to_side_price_time := [(1, { side := .Sell, price := 100, created := 1 }), (2, { side := .Buy, price := 50, created := 2 })]
      expiry_to_uuid := [(1 + MAX_LIFETIME, 1), (2 + MAX_LIFETIME, 2)] }
    { fills := [], closed := [] }
    (by decide) (by decide) (by decide) (by decide)
